import Mathlib

/-!
PluginManager (src/app/plugin/pluginManager.js)

A shallow embedding of the plugin message router: the plugin table, the
origin index, the focus token, the three host event handlers, the inbound
message handler and the four methods `register`, `broadcast`,
`postToOrigin` and `post`.

Modelling conventions.

* `this.plugins` is a `PluginTable`: the own properties of the object, in a
  `Dict`, and its prototype. A fresh table inherits the names of
  `Object.prototype`; an assignment to the name `__proto__` replaces the
  prototype by the assigned registration and creates no own property, after
  which the table also inherits the enumerable names `content` and `origin`.
  A read `this.plugins[name]` is a `Slot`: undefined, a registration, or an
  inherited value that is no registration.
* `this.origins` is keyed by urls and read at event origins. These are
  origin strings (scheme, host, port), never a name inherited from
  `Object.prototype`, so only its own properties are modelled, in a `Dict`.
* JavaScript truthiness is kept wherever the source branches on a value:
  `this.inFocus` and `this.origins[o]` are strings or undefined, so they are
  truthy exactly when set to a non-empty string.
* `postMessage(value, origin)` on the iframe of a plugin's `content` is
  recorded as a `Delivery`; handlers return the deliveries in the order
  they are made. A `content` element is a plain element holding the iframe:
  it has no property `content` or `origin` of its own.
* A `TypeError` ends the running method or handler; it is recorded in the
  field `thrown` together with the state and the deliveries made before it.
* `JSON.stringify` of an envelope is kept symbolic: the payload of a
  delivery made by a handler is the envelope object that is serialised.
* A capability of the `api` table is a function from its argument list to
  the list of `(error, result)` pairs it passes to its callback before it
  returns; it does not touch the router state, and an error thrown by the
  callback passes through it.
-/

namespace PluginManager

/-- A JavaScript value as far as the router looks at it: objects and arrays
are opaque references. -/
inductive JsVal where
  | undefined
  | null
  | bool (b : Bool)
  | num (n : Int)
  | str (s : String)
  | obj (ref : Nat)
  deriving DecidableEq, Repr

/-- JavaScript truthiness of a value (`if (v)`). -/
def JsVal.truthy : JsVal → Bool
  | .undefined => false
  | .null => false
  | .bool b => b
  | .num n => n != 0
  | .str s => s != ""
  | .obj _ => true

/-- Truthiness of a property that holds a string or is undefined. -/
def truthyStr : Option String → Bool
  | some s => s != ""
  | none => false

/-- Own-property read on a list of own properties. -/
def lookupEntry {α : Type} : List (String × α) → String → Option α
  | [], _ => none
  | (k, v) :: rest, key => if k = key then some v else lookupEntry rest key

/-- Own-property write on a list of own properties: an existing property
keeps its place, a new one is added last. -/
def assignEntry {α : Type} : List (String × α) → String → α → List (String × α)
  | [], key, v => [(key, v)]
  | (k, x) :: rest, key, v =>
    if k = key then (k, v) :: rest else (k, x) :: assignEntry rest key v

/-- The own properties of a JavaScript object used as a dictionary, in
creation order. -/
structure Dict (α : Type) where
  entries : List (String × α)
  nodup : (entries.map Prod.fst).Nodup

/-- No own property. -/
def Dict.empty {α : Type} : Dict α := ⟨[], List.nodup_nil⟩

/-- The value of the own property `key`; `none` when there is none. -/
def Dict.get {α : Type} (d : Dict α) (key : String) : Option α :=
  lookupEntry d.entries key

/-- The number a property name stands for when it is an array index: a
canonical decimal numeral below `2^32 - 1`. -/
def arrayIndex (name : String) : Option Nat :=
  let cs := name.data
  let n := cs.foldl (fun acc c => 10 * acc + (c.toNat - 48)) 0
  if cs ≠ [] ∧ cs.all Char.isDigit ∧ (cs.head? ≠ some '0' ∨ cs.length = 1) ∧ n < 4294967295 then
    some n
  else none

/-- The own property names in the order `for (var k in o)` visits them:
array indices first, in ascending numeric order, then the other names in
creation order. -/
def Dict.keys {α : Type} (d : Dict α) : List String :=
  ((d.entries.map Prod.fst).filter (fun k => (arrayIndex k).isSome)).insertionSort
      (fun a b => (arrayIndex a).getD 0 ≤ (arrayIndex b).getD 0)
    ++ (d.entries.map Prod.fst).filter (fun k => !(arrayIndex k).isSome)

/-- Creation or update of the own property `key`. -/
def Dict.set {α : Type} (d : Dict α) (key : String) (v : α) : Dict α :=
  ⟨assignEntry d.entries key v, by
    have key_mem : ∀ (l : List (String × α)) (k : String),
        k ∈ (assignEntry l key v).map Prod.fst → k = key ∨ k ∈ l.map Prod.fst := by
      intro l
      induction l with
      | nil => intro k hk; simpa [assignEntry] using hk
      | cons e rest ih =>
        intro k hk
        obtain ⟨k0, x⟩ := e
        by_cases h : k0 = key
        · right; simpa [assignEntry, h] using hk
        · simp only [assignEntry, h, if_false, List.map_cons, List.mem_cons] at hk
          rcases hk with hk | hk
          · right; simp [hk]
          · rcases ih k hk with h1 | h1
            · left; exact h1
            · right; simp [h1]
    have main : ∀ (l : List (String × α)),
        (l.map Prod.fst).Nodup → ((assignEntry l key v).map Prod.fst).Nodup := by
      intro l
      induction l with
      | nil => intro _; simp [assignEntry]
      | cons e rest ih =>
        intro hl
        obtain ⟨k0, x⟩ := e
        by_cases h : k0 = key
        · simpa [assignEntry, h] using hl
        · simp only [List.map_cons, List.nodup_cons] at hl
          simp only [assignEntry, h, if_false, List.map_cons, List.nodup_cons]
          refine ⟨fun hmem => ?_, ih hl.2⟩
          rcases key_mem rest k0 hmem with h1 | h1
          · exact h h1
          · exact hl.1 h1
    exact main d.entries d.nodup⟩

/-- The opaque `content` element of a plugin (it holds the iframe). -/
abbrev Handle := Nat

/-- A registration `{content, origin: desc.url}`, the value `register`
assigns into `this.plugins`. -/
structure Plugin where
  content : Handle
  origin : String
  deriving DecidableEq, Repr

/-- The registration descriptor `{title, url}`. -/
structure Desc where
  title : String
  url : String
  deriving DecidableEq, Repr

/-- The property names every object inherits from `Object.prototype`,
`__proto__` apart. -/
def objectPrototypeNames : List String :=
  ["constructor", "__defineGetter__", "__defineSetter__", "hasOwnProperty",
    "__lookupGetter__", "__lookupSetter__", "isPrototypeOf", "propertyIsEnumerable",
    "toString", "valueOf", "toLocaleString"]

/-- What a read `this.plugins[name]` yields: undefined, a registration, or
an inherited value that is no registration (a function of
`Object.prototype`, `Object.prototype` itself, a `content` element, an
origin string), of which only the truthiness matters: it has no property
`content` and no property `origin`. -/
inductive Slot where
  | absent
  | plugin (p : Plugin)
  | other (truthy : Bool)
  deriving DecidableEq, Repr

/-- Truthiness of a read (`if (this.plugins[name])`). -/
def Slot.truthy : Slot → Bool
  | .absent => false
  | .plugin _ => true
  | .other b => b

/-- The object `this.plugins`: its own properties and its prototype, which
is `Object.prototype` (`none`) until a registration is assigned to
`__proto__`. -/
structure PluginTable where
  own : Dict Plugin
  proto : Option Plugin

/-- The empty object `{}`. -/
def PluginTable.empty : PluginTable := ⟨Dict.empty, none⟩

/-- Property read `this.plugins[name]`, through the prototype chain. -/
def PluginTable.read (t : PluginTable) (name : String) : Slot :=
  match t.own.get name with
  | some p => .plugin p
  | none =>
    if name = "__proto__" then
      match t.proto with
      | some p => .plugin p
      | none => .other true
    else
      match t.proto with
      | some p =>
        if name = "content" then .other true
        else if name = "origin" then .other (p.origin != "")
        else if name ∈ objectPrototypeNames then .other true
        else .absent
      | none => if name ∈ objectPrototypeNames then .other true else .absent

/-- The registration a read yields, if it yields one. -/
def PluginTable.get (t : PluginTable) (name : String) : Option Plugin :=
  match t.read name with
  | .plugin p => some p
  | _ => none

/-- Property write `this.plugins[name] = v`: the name `__proto__`, unless it
is an own property, goes to the setter of `Object.prototype` and replaces
the prototype; any other name creates or updates an own property. -/
def PluginTable.set (t : PluginTable) (name : String) (v : Plugin) : PluginTable :=
  if name = "__proto__" ∧ t.own.get name = none then { t with proto := some v }
  else { t with own := t.own.set name v }

/-- The names `for (var k in this.plugins)` visits: the own names, then the
enumerable names of the prototype that no own name hides. -/
def PluginTable.keys (t : PluginTable) : List String :=
  t.own.keys ++
    match t.proto with
    | some _ => ["content", "origin"].filter (fun k => (t.own.get k).isNone)
    | none => []

/-- The router state: `this.plugins`, the own properties of `this.origins`,
and `this.inFocus` (`none` is `undefined`). -/
structure State where
  plugins : PluginTable
  origins : Dict String
  inFocus : Option String

/-- The state the constructor leaves: no plugin, no origin, no focus. -/
def State.init : State := ⟨PluginTable.empty, Dict.empty, none⟩

/-- One `postMessage(value, targetOrigin)` on the iframe of `content`. -/
structure Delivery (P : Type) where
  content : Handle
  value : P
  targetOrigin : String
  deriving DecidableEq, Repr

/-- The objects the handlers serialise: a notification
`{action: 'notification', key, type, value}` or a response
`{id, action: 'response', key, type, error, value}`. -/
inductive Envelope where
  | notification (key type : String) (value : List JsVal)
  | response (id : JsVal) (key type : String) (error : JsVal) (value : List JsVal)
  deriving DecidableEq, Repr

/-- An argument handed to a capability: a value or the callback. -/
inductive Arg where
  | val (v : JsVal)
  | callback
  deriving DecidableEq, Repr

/-- A capability: from its arguments to the `(error, result)` pairs it
passes to the callback. -/
abbrev Capability := List Arg → List (JsVal × JsVal)

/-- The capability table: `api[key]` and then `[type]`, each possibly
undefined. -/
abbrev Api := String → Option (String → Option Capability)

/-- One call `api[key][type].apply(..., args)`. -/
structure Invocation where
  key : String
  type : String
  args : List Arg
  deriving DecidableEq, Repr

/-- A parsed request `{id, key, type, value}`. -/
structure Request where
  id : JsVal
  key : String
  type : String
  value : List JsVal
  deriving DecidableEq, Repr

/-- A `message` event of the window: its `type`, its `origin`, and
`JSON.parse(event.data)` read as a request (`none` when `JSON.parse` or the
access to `data.value` throws). -/
structure MessageEvent where
  type : String
  origin : String
  data : Option Request
  deriving DecidableEq, Repr

/-- What a method call does: the state it leaves, the deliveries it made,
and whether it ended by throwing. -/
structure Sent (P : Type) where
  state : State
  emitted : List (Delivery P)
  thrown : Bool

/-- What a handler does: the state it leaves, the capabilities it invoked,
the deliveries it made, and whether it ended by throwing. -/
structure Outcome where
  state : State
  invoked : List Invocation
  emitted : List (Delivery Envelope)
  thrown : Bool

/-- Method `register (desc, content)`. -/
def register (s : State) (desc : Desc) (content : Handle) : State :=
  { s with
    plugins := s.plugins.set desc.title ⟨content, desc.url⟩
    origins := s.origins.set desc.url desc.title }

/-- Method `post (name, value)`: when `this.plugins[name]` is truthy, the
access `.content.querySelector` delivers for a registration and throws a
`TypeError` for an inherited value, whose `content` is undefined. -/
def post {P : Type} (s : State) (name : String) (value : P) : Sent P :=
  match s.plugins.read name with
  | .plugin p => ⟨s, [⟨p.content, value, p.origin⟩], false⟩
  | .other true => ⟨s, [], true⟩
  | .other false => ⟨s, [], false⟩
  | .absent => ⟨s, [], false⟩

/-- The loop of `broadcast` over the names still to visit; it ends at the
first `post` that throws. -/
def broadcastLoop {P : Type} (s : State) (value : P) : List String → Sent P
  | [] => ⟨s, [], false⟩
  | name :: rest =>
    if (post s name value).thrown then post s name value
    else
      ⟨(broadcastLoop (post s name value).state value rest).state,
        (post s name value).emitted
          ++ (broadcastLoop (post s name value).state value rest).emitted,
        (broadcastLoop (post s name value).state value rest).thrown⟩

/-- Method `broadcast (value)`: `post` for every name `for (var plugin in
this.plugins)` visits. -/
def broadcast {P : Type} (s : State) (value : P) : Sent P :=
  broadcastLoop s value s.plugins.keys

/-- Method `postToOrigin (origin, value)`. -/
def postToOrigin {P : Type} (s : State) (origin : String) (value : P) : Sent P :=
  match s.origins.get origin with
  | some title => if truthyStr (some title) then post s title value else ⟨s, [], false⟩
  | none => ⟨s, [], false⟩

/-- The `app` notification of type `focus`. -/
def focusNote : Envelope := .notification "app" "focus" []

/-- The `app` notification of type `unfocus`. -/
def unfocusNote : Envelope := .notification "app" "unfocus" []

/-- Runs the callback once per `(error, result)` pair the capability passes,
threading the state and collecting the deliveries, up to the first
invocation that throws. -/
def runCallbacks (cb : State → JsVal × JsVal → Sent Envelope) (s : State) :
    List (JsVal × JsVal) → Sent Envelope
  | [] => ⟨s, [], false⟩
  | c :: rest =>
    if (cb s c).thrown then cb s c
    else
      ⟨(runCallbacks cb (cb s c).state rest).state,
        (cb s c).emitted ++ (runCallbacks cb (cb s c).state rest).emitted,
        (runCallbacks cb (cb s c).state rest).thrown⟩

/-- Handler of `compilationFinished (success, data, source)`. -/
def onCompilationFinished (s : State) (success data source : JsVal) : Outcome :=
  if truthyStr s.inFocus then
    let r := post s (s.inFocus.getD "")
      (Envelope.notification "compiler" "compilationFinished" [success, data, source])
    ⟨r.state, [], r.emitted, r.thrown⟩
  else ⟨s, [], [], false⟩

/-- Handler of `newTransaction (tx)`; `provider` is what
`executionContext.getProvider()` returns when the event fires. -/
def onNewTransaction (s : State) (provider : String) (tx : JsVal) : Outcome :=
  if provider ≠ "vm" then ⟨s, [], [], false⟩
  else
    let r := broadcast s (Envelope.notification "txlistener" "newTransaction" [tx])
    ⟨r.state, [], r.emitted, r.thrown⟩

/-- The callback handed to `getCompilationResult` by the `tabChanged`
handler. -/
def compilationDataCallback (tabName : String) (s : State) (c : JsVal × JsVal) :
    Sent Envelope :=
  if !c.1.truthy then ⟨s, [], false⟩
  else post s tabName (Envelope.notification "compiler" "compilationData" [c.2])

/-- Handler of `tabChanged (tabName)`. -/
def onTabChanged (api : Api) (s : State) (tabName : String) : Outcome :=
  let r1 : Sent Envelope :=
    if truthyStr s.inFocus ∧ s.inFocus ≠ some tabName then
      post s (s.inFocus.getD "") unfocusNote
    else ⟨s, [], false⟩
  if r1.thrown then ⟨r1.state, [], r1.emitted, true⟩
  else if (r1.state.plugins.read tabName).truthy then
    let r2 := post r1.state tabName focusNote
    if r2.thrown then ⟨r2.state, [], r1.emitted ++ r2.emitted, true⟩
    else
      let s2 : State := { r2.state with inFocus := some tabName }
      let args := [Arg.val (.str tabName), Arg.callback]
      match (api "compiler").bind (fun m => m "getCompilationResult") with
      | some cap =>
        let r3 := runCallbacks (compilationDataCallback tabName) s2 (cap args)
        ⟨r3.state, [⟨"compiler", "getCompilationResult", args⟩],
          r1.emitted ++ r2.emitted ++ r3.emitted, r3.thrown⟩
      | none => ⟨s2, [], r1.emitted ++ r2.emitted, true⟩
  else ⟨r1.state, [], r1.emitted, false⟩

/-- The function `response (key, type, callid, error, result)` of the
message handler, for the event origin `origin`. -/
def response (origin : String) (key type : String) (callid : JsVal) (s : State)
    (c : JsVal × JsVal) : Sent Envelope :=
  postToOrigin s origin (Envelope.response callid key type c.1 [c.2])

/-- Listener of the window `message` event. In the second test
`this.plugins[this.inFocus].origin` is the origin of a registration and
undefined for an inherited value. -/
def onMessage (api : Api) (s : State) (ev : MessageEvent) : Outcome :=
  if !truthyStr (s.origins.get ev.origin) then ⟨s, [], [], false⟩
  else if ev.type = "message" ∧ truthyStr s.inFocus
      ∧ ((s.plugins.get (s.inFocus.getD "")).map (fun p => p.origin)) = some ev.origin then
    match ev.data with
    | none => ⟨s, [], [], true⟩
    | some data =>
      let args := Arg.val (.str (s.inFocus.getD "")) :: data.value.map Arg.val ++ [Arg.callback]
      match (api data.key).bind (fun m => m data.type) with
      | some cap =>
        let r := runCallbacks (response ev.origin data.key data.type data.id) s (cap args)
        ⟨r.state, [⟨data.key, data.type, args⟩], r.emitted, r.thrown⟩
      | none => ⟨s, [], [], true⟩
  else ⟨s, [], [], false⟩

/-- The events the router reacts to: a `register` call and the four
subscriptions of the constructor. -/
inductive Event where
  | register (desc : Desc) (content : Handle)
  | tabChanged (tabName : String)
  | compilationFinished (success data source : JsVal)
  | newTransaction (provider : String) (tx : JsVal)
  | message (ev : MessageEvent)

/-- One event on a state. -/
def step (api : Api) (s : State) : Event → Outcome
  | .register desc content => ⟨register s desc content, [], [], false⟩
  | .tabChanged tabName => onTabChanged api s tabName
  | .compilationFinished success data source => onCompilationFinished s success data source
  | .newTransaction provider tx => onNewTransaction s provider tx
  | .message ev => onMessage api s ev

/-- The state after a sequence of events. -/
def run (api : Api) (s : State) (evs : List Event) : State :=
  evs.foldl (fun st e => (step api st e).state) s

/-- The states reachable from the initial state by any sequence of
events. -/
inductive Reachable (api : Api) : State → Prop where
  | init : Reachable api State.init
  | step {s : State} (e : Event) : Reachable api s → Reachable api (step api s e).state

/-- The focus holder as the handlers see it: the focus token when it is
truthy. -/
def focusHolder (s : State) : Option String :=
  if truthyStr s.inFocus then s.inFocus else none

/-- The state after a sequence of `register` calls from the empty state. -/
def registerAll (calls : List (Desc × Handle)) : State :=
  calls.foldl (fun st c => register st c.1 c.2) State.init

/-- Whether a delivery carries a notification of key `app`. -/
def isAppNotification (d : Delivery Envelope) : Bool :=
  match d.value with
  | .notification key _ _ => key == "app"
  | .response _ _ _ _ _ => false

/-- The deliveries made, in order, while a sequence of events is handled
from a state. -/
def emittedBy (api : Api) (s : State) : List Event → List (Delivery Envelope)
  | [] => []
  | e :: rest => (step api s e).emitted ++ emittedBy api (step api s e).state rest

/-- The `compiler` notification of type `compilationFinished`. -/
def compilationFinishedNote (success data source : JsVal) : Envelope :=
  .notification "compiler" "compilationFinished" [success, data, source]

/-- The `txlistener` notification of type `newTransaction`. -/
def newTransactionNote (tx : JsVal) : Envelope :=
  .notification "txlistener" "newTransaction" [tx]

/-- The `compiler` notification of type `compilationData`. -/
def compilationDataNote (data : JsVal) : Envelope :=
  .notification "compiler" "compilationData" [data]

/-- Whether `this.plugins` inherits the name through its prototype chain:
`__proto__` and the names of `Object.prototype` always, `content` and
`origin` once a registration has been assigned to `__proto__`. -/
def PluginTable.inheritsName (t : PluginTable) (name : String) : Bool :=
  name = "__proto__" || decide (name ∈ objectPrototypeNames)
    || (t.proto.isSome && (name = "content" || name = "origin"))

/-- The sender checks of the `message` listener: the origin index holds a
truthy title for the event origin, the event is a `message`, the focus token
is truthy, and the event origin is the recorded origin of the registration
the focus token names. -/
def passesSenderChecks (s : State) (ev : MessageEvent) : Prop :=
  truthyStr (s.origins.get ev.origin) = true
    ∧ ev.type = "message" ∧ truthyStr s.inFocus = true
    ∧ ((s.plugins.get (s.inFocus.getD "")).map (fun p => p.origin)) = some ev.origin

instance passesSenderChecks.decidable (s : State) (ev : MessageEvent) :
    Decidable (passesSenderChecks s ev) := by
  unfold passesSenderChecks
  infer_instance

/-- A capability table for the examples: `config.getConfig` calls back once
with `(null, "contents")`, `compiler.getCompilationResult` never calls
back. -/
def demoApi : Api := fun key =>
  if key = "config" then
    some (fun type =>
      if type = "getConfig" then some (fun _ => [(JsVal.null, JsVal.str "contents")]) else none)
  else if key = "compiler" then
    some (fun type => if type = "getCompilationResult" then some (fun _ => []) else none)
  else none

/-- A capability table in which `compiler.getCompilationResult` calls back
once with no error and the compilation data `obj 5`, and `config.getConfig`
calls back twice. -/
def eagerApi : Api := fun key =>
  if key = "compiler" then
    some (fun type =>
      if type = "getCompilationResult" then some (fun _ => [(JsVal.null, JsVal.obj 5)])
      else none)
  else if key = "config" then
    some (fun type =>
      if type = "getConfig" then
        some (fun _ => [(JsVal.null, JsVal.str "first"), (JsVal.null, JsVal.str "second")])
      else none)
  else none

/-- Plugins `A` and `B` registered with their own origins, focus moved to
`A` and then to `B`. -/
def demoState : State :=
  run demoApi State.init
    [.register ⟨"A", "https://a"⟩ 1, .register ⟨"B", "https://b"⟩ 2,
      .tabChanged "A", .tabChanged "B"]

/-- Plugins `A` and `B` registered with the same origin, focus on `A`. -/
def sharedOriginState : State :=
  run demoApi State.init
    [.register ⟨"A", "https://a"⟩ 1, .register ⟨"B", "https://a"⟩ 2, .tabChanged "A"]

/-- Plugin `A` and then a plugin with the empty title registered with the
same origin, focus on `A`. -/
def emptyTitleState : State :=
  run demoApi State.init
    [.register ⟨"A", "https://a"⟩ 1, .register ⟨"", "https://a"⟩ 2, .tabChanged "A"]

/-- A plugin with the empty title and plugin `A` registered with their own
origins, focus on the plugin with the empty title. -/
def emptyFocusState : State :=
  run demoApi State.init
    [.register ⟨"", "https://e"⟩ 1, .register ⟨"A", "https://a"⟩ 2, .tabChanged ""]

/-- Plugin `A` registered, nothing focused. -/
def oneRegisteredState : State :=
  run demoApi State.init [.register ⟨"A", "https://a"⟩ 1]

/-- Plugin `A` and then a plugin titled `__proto__` registered, nothing
focused. -/
def protoTitleState : State :=
  run demoApi State.init
    [.register ⟨"A", "https://a"⟩ 1, .register ⟨"__proto__", "https://p"⟩ 2]

/-- The request `{id: 7, key: 'config', type: 'getConfig', value: ['file.txt']}`. -/
def demoRequest : Request := ⟨.num 7, "config", "getConfig", [.str "file.txt"]⟩

/-- The response `{id: 7, action: 'response', key: 'config', type: 'getConfig',
error: null, value: ['contents']}`. -/
def demoResponse : Envelope :=
  .response (.num 7) "config" "getConfig" .null [.str "contents"]

/-! ## Dictionaries -/

theorem lookupEntry_assignEntry {α : Type} (l : List (String × α)) (key k : String) (v : α) :
    lookupEntry (assignEntry l key v) k = if key = k then some v else lookupEntry l k := by
  induction l with
  | nil => simp [assignEntry, lookupEntry]
  | cons e rest ih =>
    obtain ⟨k0, x⟩ := e
    by_cases h : k0 = key
    · subst h
      by_cases h2 : k0 = k <;> simp [assignEntry, lookupEntry, h2]
    · by_cases h2 : k0 = k
      · subst h2
        have h3 : ¬ key = k0 := fun h3 => h h3.symm
        simp [assignEntry, lookupEntry, h, h3]
      · simp [assignEntry, lookupEntry, h, h2, ih]

theorem Dict.get_set {α : Type} (d : Dict α) (key k : String) (v : α) :
    (d.set key v).get k = if key = k then some v else d.get k :=
  lookupEntry_assignEntry d.entries key k v

theorem Dict.get_empty {α : Type} (k : String) : (Dict.empty : Dict α).get k = none := rfl

theorem lookupEntry_of_mem {α : Type} (l : List (String × α)) (hl : (l.map Prod.fst).Nodup)
    (e : String × α) (he : e ∈ l) : lookupEntry l e.1 = some e.2 := by
  induction l with
  | nil => simp at he
  | cons e0 rest ih =>
    obtain ⟨k0, x⟩ := e0
    simp only [List.map_cons, List.nodup_cons] at hl
    rcases List.mem_cons.mp he with h | h
    · subst h; simp [lookupEntry]
    · have hne : ¬ k0 = e.1 := by
        intro hk
        apply hl.1
        rw [hk]
        exact List.mem_map_of_mem Prod.fst h
      simp [lookupEntry, hne, ih hl.2 h]

theorem Dict.mem_entries_iff {α : Type} (d : Dict α) (k : String) (v : α) :
    (k, v) ∈ d.entries ↔ d.get k = some v := by
  constructor
  · intro h
    exact lookupEntry_of_mem d.entries d.nodup (k, v) h
  · unfold Dict.get
    generalize d.entries = l
    induction l with
    | nil => intro h; simp [lookupEntry] at h
    | cons e rest ih =>
      obtain ⟨k0, x⟩ := e
      intro h
      by_cases hk : k0 = k
      · simp only [lookupEntry, hk, if_true, Option.some.injEq] at h
        simp [hk, h]
      · simp only [lookupEntry, hk, if_false] at h
        exact List.mem_cons_of_mem _ (ih h)

theorem Dict.keys_perm {α : Type} (d : Dict α) : d.keys.Perm (d.entries.map Prod.fst) := by
  unfold Dict.keys
  refine List.Perm.trans (List.Perm.append_right _ (List.perm_insertionSort _ _)) ?_
  exact List.filter_append_perm _ _

theorem Dict.mem_keys_iff {α : Type} (d : Dict α) (k : String) :
    k ∈ d.keys ↔ ∃ v, d.get k = some v := by
  rw [(Dict.keys_perm d).mem_iff]
  constructor
  · intro h
    obtain ⟨e, he, hk⟩ := List.mem_map.mp h
    refine ⟨e.2, ?_⟩
    rw [← hk]
    exact lookupEntry_of_mem d.entries d.nodup e he
  · rintro ⟨v, hv⟩
    exact List.mem_map.mpr ⟨(k, v), (Dict.mem_entries_iff d k v).mpr hv, rfl⟩

/-! ## The plugin table -/

theorem PluginTable.read_of_own (t : PluginTable) (name : String) (p : Plugin)
    (h : t.own.get name = some p) : t.read name = .plugin p := by
  unfold PluginTable.read
  rw [h]

theorem PluginTable.get_of_own (t : PluginTable) (name : String) (p : Plugin)
    (h : t.own.get name = some p) : t.get name = some p := by
  unfold PluginTable.get
  rw [PluginTable.read_of_own t name p h]

theorem PluginTable.get_eq_some_iff (t : PluginTable) (name : String) (p : Plugin) :
    t.get name = some p ↔ t.read name = .plugin p := by
  unfold PluginTable.get
  cases h : t.read name with
  | absent => simp
  | plugin q => simp
  | other b => simp

theorem PluginTable.get_eq_none_iff (t : PluginTable) (name : String) :
    t.get name = none ↔ t.read name = .absent ∨ ∃ b, t.read name = .other b := by
  unfold PluginTable.get
  cases h : t.read name with
  | absent => simp
  | plugin q => simp
  | other b => simp

theorem PluginTable.get_of_empty_table (name : String) : PluginTable.empty.get name = none := by
  unfold PluginTable.get PluginTable.read PluginTable.empty
  simp only [Dict.get_empty]
  by_cases h1 : name = "__proto__"
  · simp [h1]
  · by_cases h2 : name ∈ objectPrototypeNames <;> simp [h1, h2]

theorem PluginTable.get_of_proto_none (t : PluginTable) (name : String) (h : t.proto = none) :
    t.get name = t.own.get name := by
  unfold PluginTable.get PluginTable.read
  cases ho : t.own.get name with
  | some p => rfl
  | none =>
    simp only [h]
    by_cases h1 : name = "__proto__"
    · simp [h1]
    · by_cases h2 : name ∈ objectPrototypeNames <;> simp [h1, h2]

theorem PluginTable.get_eq (t : PluginTable) (name : String) :
    t.get name =
      match t.own.get name with
      | some p => some p
      | none => if name = "__proto__" then t.proto else none := by
  unfold PluginTable.get PluginTable.read
  cases ho : t.own.get name with
  | some p => rfl
  | none =>
    by_cases h1 : name = "__proto__"
    · cases hp : t.proto <;> simp [h1]
    · cases hp : t.proto with
      | none => by_cases h2 : name ∈ objectPrototypeNames <;> simp [h1, h2]
      | some q =>
        by_cases h3 : name = "content"
        · simp [h1, h3]
        · by_cases h4 : name = "origin"
          · simp [h1, h4]
          · by_cases h2 : name ∈ objectPrototypeNames <;> simp [h1, h2, h3, h4]

theorem PluginTable.get_after_set (t : PluginTable) (key k : String) (v : Plugin) :
    (t.set key v).get k = if key = k then some v else t.get k := by
  rw [PluginTable.get_eq, PluginTable.get_eq]
  unfold PluginTable.set
  by_cases hc : key = "__proto__" ∧ t.own.get key = none
  · rw [if_pos hc]
    obtain ⟨hk, ho⟩ := hc
    subst hk
    by_cases h : "__proto__" = k
    · subst h
      simp [ho]
    · have h' : ¬ k = "__proto__" := fun e => h e.symm
      simp [h, h']
  · rw [if_neg hc]
    simp only [Dict.get_set]
    by_cases h : key = k
    · simp [h]
    · simp only [h, if_false]

/-! ## The methods -/

theorem post_state {P : Type} (s : State) (name : String) (value : P) :
    (post s name value).state = s := by
  unfold post; split <;> rfl

theorem post_of_get_some {P : Type} (s : State) (name : String) (value : P) (p : Plugin)
    (h : s.plugins.get name = some p) :
    post s name value = ⟨s, [⟨p.content, value, p.origin⟩], false⟩ := by
  unfold post
  rw [(PluginTable.get_eq_some_iff _ _ _).mp h]

theorem post_emitted {P : Type} (s : State) (name : String) (value : P) :
    (post s name value).emitted =
      match s.plugins.get name with
      | some p => [⟨p.content, value, p.origin⟩]
      | none => [] := by
  unfold post PluginTable.get
  cases h : s.plugins.read name with
  | absent => rfl
  | plugin q => rfl
  | other b => cases b <;> rfl

theorem post_thrown_iff {P : Type} (s : State) (name : String) (value : P) :
    (post s name value).thrown = true ↔ s.plugins.read name = .other true := by
  unfold post
  cases h : s.plugins.read name with
  | absent => simp
  | plugin q => simp
  | other b => cases b <;> simp

theorem post_emitted_of_thrown {P : Type} (s : State) (name : String) (value : P)
    (h : (post s name value).thrown = true) : (post s name value).emitted = [] := by
  have h1 := (post_thrown_iff s name value).mp h
  unfold post
  rw [h1]

theorem post_thrown_payload {P Q : Type} (s : State) (name : String) (v : P) (w : Q) :
    (post s name v).thrown = (post s name w).thrown := by
  unfold post
  cases h : s.plugins.read name with
  | absent => rfl
  | plugin q => rfl
  | other b => cases b <;> rfl

theorem postToOrigin_state {P : Type} (s : State) (origin : String) (value : P) :
    (postToOrigin s origin value).state = s := by
  unfold postToOrigin
  split
  · split
    · exact post_state _ _ _
    · rfl
  · rfl

theorem postToOrigin_emitted_of_thrown {P : Type} (s : State) (origin : String) (value : P)
    (h : (postToOrigin s origin value).thrown = true) :
    (postToOrigin s origin value).emitted = [] := by
  unfold postToOrigin at h ⊢
  cases ho : s.origins.get origin with
  | none => rfl
  | some title =>
    rw [ho] at h
    by_cases ht : truthyStr (some title) = true
    · simp only [ht, if_true] at h ⊢
      exact post_emitted_of_thrown _ _ _ h
    · simp only [ht]
      rfl

theorem postToOrigin_thrown_payload {P Q : Type} (s : State) (origin : String) (v : P) (w : Q) :
    (postToOrigin s origin v).thrown = (postToOrigin s origin w).thrown := by
  unfold postToOrigin
  cases h : s.origins.get origin with
  | none => rfl
  | some title =>
    by_cases ht : truthyStr (some title) = true
    · simp only [ht, if_true]
      exact post_thrown_payload _ _ _ _
    · simp only [ht]
      rfl

theorem postToOrigin_of_indexed {P : Type} (s : State) (origin title : String)
    (q : Plugin) (value : P)
    (ho : s.origins.get origin = some title) (ht : title ≠ "")
    (hq : s.plugins.get title = some q) :
    postToOrigin s origin value = ⟨s, [⟨q.content, value, q.origin⟩], false⟩ := by
  unfold postToOrigin
  have hb : truthyStr (some title) = true := by simpa [truthyStr] using ht
  simp only [ho, hb, if_true]
  exact post_of_get_some s title value q hq

theorem postToOrigin_emitted_of_indexed {P : Type} (s : State) (origin title : String)
    (q : Plugin) (value : P)
    (ho : s.origins.get origin = some title) (ht : title ≠ "")
    (hq : s.plugins.get title = some q) :
    (postToOrigin s origin value).emitted = [⟨q.content, value, q.origin⟩] := by
  rw [postToOrigin_of_indexed s origin title q value ho ht hq]

theorem runCallbacks_state (cb : State → JsVal × JsVal → Sent Envelope)
    (hcb : ∀ s c, (cb s c).state = s) (s : State) (calls : List (JsVal × JsVal)) :
    (runCallbacks cb s calls).state = s := by
  induction calls with
  | nil => rfl
  | cons c rest ih =>
    unfold runCallbacks
    by_cases h : (cb s c).thrown = true
    · rw [if_pos h]; exact hcb s c
    · rw [if_neg h]
      show (runCallbacks cb (cb s c).state rest).state = s
      rw [hcb s c]
      exact ih

theorem runCallbacks_emitted (cb : State → JsVal × JsVal → Sent Envelope)
    (hcb : ∀ s c, (cb s c).state = s) (s : State)
    (hthrown : ∀ c, (cb s c).thrown = true → (cb s c).emitted = [])
    (huniform : ∀ c c2, (cb s c).thrown = (cb s c2).thrown)
    (calls : List (JsVal × JsVal)) :
    (runCallbacks cb s calls).emitted = calls.flatMap (fun c => (cb s c).emitted) := by
  induction calls with
  | nil => rfl
  | cons c rest ih =>
    unfold runCallbacks
    by_cases h : (cb s c).thrown = true
    · rw [if_pos h, hthrown c h]
      symm
      rw [List.flatMap_eq_nil_iff]
      intro c2 _
      exact hthrown c2 (by rw [huniform c2 c]; exact h)
    · rw [if_neg h]
      show (cb s c).emitted ++ (runCallbacks cb (cb s c).state rest).emitted = _
      rw [hcb s c, ih, List.flatMap_cons]

theorem runCallbacks_of_no_throw (cb : State → JsVal × JsVal → Sent Envelope)
    (hcb : ∀ s c, (cb s c).state = s) (s : State)
    (hno : ∀ c, (cb s c).thrown = false) (calls : List (JsVal × JsVal)) :
    runCallbacks cb s calls = ⟨s, calls.flatMap (fun c => (cb s c).emitted), false⟩ := by
  induction calls with
  | nil => rfl
  | cons c rest ih =>
    unfold runCallbacks
    have h : ¬ (cb s c).thrown = true := by rw [hno c]; simp
    rw [if_neg h, hcb s c, ih, List.flatMap_cons]

theorem broadcastLoop_state {P : Type} (s : State) (value : P) (names : List String) :
    (broadcastLoop s value names).state = s := by
  induction names with
  | nil => rfl
  | cons name rest ih =>
    unfold broadcastLoop
    by_cases h : (post s name value).thrown = true
    · rw [if_pos h]; exact post_state _ _ _
    · rw [if_neg h]
      show (broadcastLoop (post s name value).state value rest).state = s
      rw [post_state]
      exact ih

theorem broadcast_state {P : Type} (s : State) (value : P) : (broadcast s value).state = s :=
  broadcastLoop_state s value _

theorem broadcastLoop_of_plugins {P : Type} (s : State) (value : P) (names : List String)
    (h : ∀ name ∈ names, ∃ p, s.plugins.get name = some p) :
    broadcastLoop s value names =
      ⟨s, names.flatMap (fun name => (post s name value).emitted), false⟩ := by
  induction names with
  | nil => rfl
  | cons name rest ih =>
    obtain ⟨p, hp⟩ := h name (List.mem_cons_self _ _)
    unfold broadcastLoop
    have hpost := post_of_get_some s name value p hp
    have hno : ¬ (post s name value).thrown = true := by rw [hpost]; simp
    rw [if_neg hno, post_state, ih (fun n hn => h n (List.mem_cons_of_mem _ hn)),
      List.flatMap_cons]

theorem broadcast_of_proto_none {P : Type} (s : State) (value : P)
    (hproto : s.plugins.proto = none) :
    (broadcast s value).thrown = false
      ∧ (broadcast s value).emitted.Perm
          (s.plugins.own.entries.map (fun e => ⟨e.2.content, value, e.2.origin⟩)) := by
  have hkeys : s.plugins.keys = s.plugins.own.keys := by
    unfold PluginTable.keys
    rw [hproto]
    simp
  have hall : ∀ name ∈ s.plugins.own.keys, ∃ p, s.plugins.get name = some p := by
    intro name hname
    obtain ⟨p, hp⟩ := (Dict.mem_keys_iff _ _).mp hname
    exact ⟨p, PluginTable.get_of_own _ _ _ hp⟩
  unfold broadcast
  rw [hkeys, broadcastLoop_of_plugins s value _ hall]
  refine ⟨rfl, ?_⟩
  show (List.flatMap _ _).Perm _
  have hperm := Dict.keys_perm s.plugins.own
  refine List.Perm.trans (List.Perm.flatMap_right _ hperm) ?_
  have each : ∀ (l : List (String × Plugin)),
      (∀ e ∈ l, (post s e.1 value).emitted = [⟨e.2.content, value, e.2.origin⟩]) →
      (l.map Prod.fst).flatMap (fun name => (post s name value).emitted)
        = l.map (fun e => ⟨e.2.content, value, e.2.origin⟩) := by
    intro l
    induction l with
    | nil => intro _; rfl
    | cons e rest ih =>
      intro h
      simp only [List.map_cons, List.flatMap_cons]
      rw [h e (List.mem_cons_self _ _), ih (fun e he => h e (List.mem_cons_of_mem _ he))]
      rfl
  rw [each]
  intro e he
  have hown : s.plugins.own.get e.1 = some e.2 :=
    lookupEntry_of_mem s.plugins.own.entries s.plugins.own.nodup e he
  rw [post_of_get_some s e.1 value e.2 (PluginTable.get_of_own _ _ _ hown)]

/-! ## The handlers -/

theorem compilationDataCallback_state (tabName : String) (s : State) (c : JsVal × JsVal) :
    (compilationDataCallback tabName s c).state = s := by
  unfold compilationDataCallback
  split
  · rfl
  · exact post_state _ _ _

theorem response_state (origin key type : String) (callid : JsVal) (s : State)
    (c : JsVal × JsVal) : (response origin key type callid s c).state = s :=
  postToOrigin_state _ _ _

theorem onCompilationFinished_state (s : State) (success data source : JsVal) :
    (onCompilationFinished s success data source).state = s := by
  unfold onCompilationFinished
  split
  · exact post_state _ _ _
  · rfl

theorem onNewTransaction_state (s : State) (provider : String) (tx : JsVal) :
    (onNewTransaction s provider tx).state = s := by
  unfold onNewTransaction
  split
  · rfl
  · exact broadcast_state _ _

theorem onMessage_state (api : Api) (s : State) (ev : MessageEvent) :
    (onMessage api s ev).state = s := by
  unfold onMessage
  split
  · rfl
  · split
    · split
      · rfl
      · split
        · exact runCallbacks_state _ (response_state _ _ _ _) _ _
        · rfl
    · rfl

theorem unfocus_branch_state (s : State) (tabName : String) :
    (if truthyStr s.inFocus ∧ s.inFocus ≠ some tabName then
        post s (s.inFocus.getD "") unfocusNote
      else ⟨s, [], false⟩).state = s := by
  split
  · exact post_state _ _ _
  · rfl

theorem unfocus_branch_emitted (s : State) (tabName : String) :
    (if truthyStr s.inFocus ∧ s.inFocus ≠ some tabName then
        post s (s.inFocus.getD "") unfocusNote
      else ⟨s, [], false⟩).emitted =
      if truthyStr s.inFocus ∧ s.inFocus ≠ some tabName then
        (post s (s.inFocus.getD "") unfocusNote).2
      else [] := by
  split <;> rfl

theorem unfocus_branch_thrown (s : State) (tabName : String)
    (h : (post s (s.inFocus.getD "") unfocusNote).thrown = false) :
    (if truthyStr s.inFocus ∧ s.inFocus ≠ some tabName then
        post s (s.inFocus.getD "") unfocusNote
      else ⟨s, [], false⟩).thrown = false := by
  split
  · exact h
  · rfl

theorem unfocus_part_values (s : State) (target : String) :
    ∀ d ∈ (if truthyStr s.inFocus ∧ s.inFocus ≠ some target then
        (post s (s.inFocus.getD "") unfocusNote).2
      else []), d.value = unfocusNote := by
  intro d hd
  split at hd
  · change d ∈ (post s (s.inFocus.getD "") unfocusNote).emitted at hd
    rw [post_emitted] at hd
    split at hd
    · simp only [List.mem_singleton] at hd
      rw [hd]
    · simp at hd
  · simp at hd

/-- The `tabChanged` handler when the unfocus `post` throws. -/
theorem onTabChanged_of_unfocus_thrown (api : Api) (s : State) (tabName : String)
    (h : (if truthyStr s.inFocus ∧ s.inFocus ≠ some tabName then
        post s (s.inFocus.getD "") unfocusNote
      else ⟨s, [], false⟩).thrown = true) :
    onTabChanged api s tabName = ⟨s, [], [], true⟩ := by
  have hem : (if truthyStr s.inFocus ∧ s.inFocus ≠ some tabName then
        post s (s.inFocus.getD "") unfocusNote
      else ⟨s, [], false⟩).emitted = ([] : List (Delivery Envelope)) := by
    split at h
    · rename_i hc
      rw [if_pos hc]
      exact post_emitted_of_thrown _ _ _ h
    · cases h
  simp only [onTabChanged]
  rw [if_pos h, unfocus_branch_state, hem]

theorem onTabChanged_unregistered (api : Api) (s : State) (tabName : String)
    (hU : (if truthyStr s.inFocus ∧ s.inFocus ≠ some tabName then
        post s (s.inFocus.getD "") unfocusNote
      else ⟨s, [], false⟩).thrown = false)
    (h : s.plugins.get tabName = none) :
    onTabChanged api s tabName =
      ⟨s, [],
        if truthyStr s.inFocus ∧ s.inFocus ≠ some tabName then
          (post s (s.inFocus.getD "") unfocusNote).2
        else [],
        (s.plugins.read tabName).truthy⟩ := by
  simp only [onTabChanged]
  rw [← unfocus_branch_emitted]
  generalize hr : (if truthyStr s.inFocus ∧ s.inFocus ≠ some tabName then
        post s (s.inFocus.getD "") unfocusNote else (⟨s, [], false⟩ : Sent Envelope)) = r1
  rw [hr] at hU
  have h1 : r1.state = s := by rw [← hr]; exact unfocus_branch_state s tabName
  obtain ⟨s1, o1, t1⟩ := r1
  simp only at h1 hU
  subst h1
  subst hU
  simp only [Bool.false_eq_true, if_false]
  rcases (PluginTable.get_eq_none_iff _ _).mp h with hr2 | ⟨b, hr2⟩
  · simp [hr2, Slot.truthy]
  · cases b
    · simp [hr2, Slot.truthy]
    · have hp : post s1 tabName focusNote = ⟨s1, [], true⟩ := by
        unfold post; rw [hr2]
      simp [hr2, Slot.truthy, hp]

theorem compilationDataCallback_of_registered (tabName : String) (s2 : State) (p : Plugin)
    (h : s2.plugins.get tabName = some p) (c : JsVal × JsVal) :
    compilationDataCallback tabName s2 c =
      ⟨s2, if c.1.truthy then
          [⟨p.content, Envelope.notification "compiler" "compilationData" [c.2], p.origin⟩]
        else [], false⟩ := by
  unfold compilationDataCallback
  by_cases hc : c.1.truthy = true
  · simp only [hc, Bool.not_true, Bool.false_eq_true, if_false, if_true]
    exact post_of_get_some s2 tabName _ p h
  · simp [hc]

theorem onTabChanged_registered (api : Api) (s : State) (tabName : String) (p : Plugin)
    (hU : (if truthyStr s.inFocus ∧ s.inFocus ≠ some tabName then
        post s (s.inFocus.getD "") unfocusNote
      else ⟨s, [], false⟩).thrown = false)
    (h : s.plugins.get tabName = some p) :
    (onTabChanged api s tabName).state = { s with inFocus := some tabName }
      ∧ (onTabChanged api s tabName).emitted =
        (if truthyStr s.inFocus ∧ s.inFocus ≠ some tabName then
            (post s (s.inFocus.getD "") unfocusNote).2
          else [])
        ++ [⟨p.content, focusNote, p.origin⟩]
        ++ (match (api "compiler").bind (fun m => m "getCompilationResult") with
            | some cap =>
              (cap [Arg.val (.str tabName), Arg.callback]).flatMap (fun c =>
                if c.1.truthy then
                  [⟨p.content, Envelope.notification "compiler" "compilationData" [c.2],
                    p.origin⟩]
                else [])
            | none => []) := by
  simp only [onTabChanged]
  rw [← unfocus_branch_emitted]
  generalize hr : (if truthyStr s.inFocus ∧ s.inFocus ≠ some tabName then
        post s (s.inFocus.getD "") unfocusNote else (⟨s, [], false⟩ : Sent Envelope)) = r1
  rw [hr] at hU
  have h1 : r1.state = s := by rw [← hr]; exact unfocus_branch_state s tabName
  obtain ⟨s1, o1, t1⟩ := r1
  simp only at h1 hU
  subst h1
  subst hU
  have hread := (PluginTable.get_eq_some_iff _ _ _).mp h
  have hpost := post_of_get_some s1 tabName focusNote p h
  have hcb : ∀ c, compilationDataCallback tabName { s1 with inFocus := some tabName } c =
      ⟨{ s1 with inFocus := some tabName }, if c.1.truthy then
          [⟨p.content, Envelope.notification "compiler" "compilationData" [c.2], p.origin⟩]
        else [], false⟩ :=
    compilationDataCallback_of_registered tabName { s1 with inFocus := some tabName } p h
  have hrun : ∀ calls, runCallbacks (compilationDataCallback tabName)
      { s1 with inFocus := some tabName } calls =
      ⟨{ s1 with inFocus := some tabName }, calls.flatMap (fun c =>
        if c.1.truthy then
          [⟨p.content, Envelope.notification "compiler" "compilationData" [c.2], p.origin⟩]
        else []), false⟩ := by
    intro calls
    rw [runCallbacks_of_no_throw _ (compilationDataCallback_state tabName) _
      (fun c => by rw [hcb c]) calls]
    congr 1
    apply List.flatMap_congr
    intro c _
    rw [hcb c]
  simp only [Bool.false_eq_true, if_false, hread, Slot.truthy, if_true, hpost]
  cases (api "compiler").bind (fun m => m "getCompilationResult") with
  | none => simp
  | some cap => simp [hrun]

/-! ## Invariants of the reachable states -/

theorem onTabChanged_state_cases (api : Api) (s : State) (tabName : String) :
    (onTabChanged api s tabName).state = s
      ∨ ∃ p, s.plugins.get tabName = some p
          ∧ (onTabChanged api s tabName).state = { s with inFocus := some tabName } := by
  by_cases hU : (if truthyStr s.inFocus ∧ s.inFocus ≠ some tabName then
        post s (s.inFocus.getD "") unfocusNote
      else (⟨s, [], false⟩ : Sent Envelope)).thrown = true
  · left
    rw [onTabChanged_of_unfocus_thrown api s tabName hU]
  · have hU2 : (if truthyStr s.inFocus ∧ s.inFocus ≠ some tabName then
        post s (s.inFocus.getD "") unfocusNote
      else (⟨s, [], false⟩ : Sent Envelope)).thrown = false := by simpa using hU
    cases h : s.plugins.get tabName with
    | none =>
      left
      rw [onTabChanged_unregistered api s tabName hU2 h]
    | some p =>
      right
      exact ⟨p, rfl, (onTabChanged_registered api s tabName p hU2 h).1⟩

theorem step_state_cases (api : Api) (s : State) (e : Event) :
    (∃ desc content, (step api s e).state = register s desc content)
    ∨ (step api s e).state = s
    ∨ (∃ t p, s.plugins.get t = some p ∧ (step api s e).state = { s with inFocus := some t }) := by
  cases e with
  | register desc content => exact Or.inl ⟨desc, content, rfl⟩
  | tabChanged tabName =>
    rcases onTabChanged_state_cases api s tabName with h | ⟨p, hp, h⟩
    · exact Or.inr (Or.inl h)
    · exact Or.inr (Or.inr ⟨tabName, p, hp, h⟩)
  | compilationFinished success data source =>
    exact Or.inr (Or.inl (onCompilationFinished_state s success data source))
  | newTransaction provider tx => exact Or.inr (Or.inl (onNewTransaction_state s provider tx))
  | message ev => exact Or.inr (Or.inl (onMessage_state api s ev))

theorem register_plugins_get (s : State) (desc : Desc) (content : Handle) (t : String) :
    (register s desc content).plugins.get t =
      if desc.title = t then some ⟨content, desc.url⟩ else s.plugins.get t :=
  PluginTable.get_after_set _ _ _ _

theorem register_origins_get (s : State) (desc : Desc) (content : Handle) (o : String) :
    (register s desc content).origins.get o =
      if desc.url = o then some desc.title else s.origins.get o :=
  Dict.get_set _ _ _ _

theorem register_keeps_plugin (s : State) (desc : Desc) (content : Handle) (t : String)
    (h : ∃ p, s.plugins.get t = some p) : ∃ p, (register s desc content).plugins.get t = some p := by
  rw [register_plugins_get]
  by_cases hd : desc.title = t
  · simp [hd]
  · simpa [hd] using h

theorem reachable_focus_registered (api : Api) (s : State) (hs : Reachable api s) :
    ∀ f, s.inFocus = some f → ∃ p, s.plugins.get f = some p := by
  induction hs with
  | init => intro f hf; simp [State.init] at hf
  | @step s e _ ih =>
    intro f hf
    rcases step_state_cases api s e with ⟨desc, content, h⟩ | h | ⟨t, p, ht, h⟩
    · rw [h] at hf ⊢
      exact register_keeps_plugin s desc content f (ih f hf)
    · rw [h] at hf ⊢
      exact ih f hf
    · rw [h] at hf ⊢
      simp only [Option.some.injEq] at hf
      subst hf
      exact ⟨p, ht⟩

theorem reachable_origins_registered (api : Api) (s : State) (hs : Reachable api s) :
    ∀ o t, s.origins.get o = some t → ∃ p, s.plugins.get t = some p := by
  induction hs with
  | init => intro o t h; simp [State.init, Dict.get_empty] at h
  | @step s e _ ih =>
    intro o t hot
    rcases step_state_cases api s e with ⟨desc, content, h⟩ | h | ⟨t2, p, _, h⟩
    · rw [h] at hot ⊢
      rw [register_origins_get] at hot
      by_cases hd : desc.url = o
      · simp only [hd, if_true, Option.some.injEq] at hot
        rw [register_plugins_get]
        simp [hot]
      · simp only [hd, if_false] at hot
        exact register_keeps_plugin s desc content t (ih o t hot)
    · rw [h] at hot ⊢
      exact ih o t hot
    · rw [h] at hot ⊢
      exact ih o t hot

theorem reachable_run (api : Api) (evs : List Event) : Reachable api (run api State.init evs) := by
  have gen : ∀ (evs : List Event) (s : State), Reachable api s → Reachable api (run api s evs) := by
    intro evs
    induction evs with
    | nil => intro s hs; exact hs
    | cons e rest ih => intro s hs; exact ih _ (Reachable.step e hs)
  exact gen evs _ Reachable.init

theorem reachable_unfocus_no_throw (api : Api) (s : State) (hs : Reachable api s)
    (tabName : String) :
    (if truthyStr s.inFocus ∧ s.inFocus ≠ some tabName then
        post s (s.inFocus.getD "") unfocusNote
      else (⟨s, [], false⟩ : Sent Envelope)).thrown = false := by
  split
  · rename_i hc
    cases hf : s.inFocus with
    | none => rw [hf] at hc; simp [truthyStr] at hc
    | some f =>
      obtain ⟨p, hp⟩ := reachable_focus_registered api s hs f hf
      rw [Option.getD_some, post_of_get_some s f unfocusNote p hp]
  · rfl

/-! ## Focus -/

theorem focusHolder_eq_some (s : State) (f : String) :
    focusHolder s = some f ↔ s.inFocus = some f ∧ f ≠ "" := by
  unfold focusHolder truthyStr
  cases h : s.inFocus with
  | none => simp
  | some g =>
    by_cases hg : g = ""
    · subst hg
      simp only [bne_self_eq_false, Bool.false_eq_true, if_false, Option.some.injEq, false_iff,
        reduceCtorEq, not_and, not_not]
      intro h2
      exact h2.symm
    · have hb : (g != "") = true := by simpa using hg
      simp only [hb, if_true, Option.some.injEq]
      constructor
      · intro h2; subst h2; exact ⟨rfl, hg⟩
      · intro h2; exact h2.1

theorem focusHolder_eq_none (s : State) :
    focusHolder s = none ↔ s.inFocus = none ∨ s.inFocus = some "" := by
  unfold focusHolder truthyStr
  cases h : s.inFocus with
  | none => simp
  | some g =>
    by_cases hg : g = ""
    · subst hg; simp
    · simp [hg]

theorem truthyStr_inFocus (s : State) :
    truthyStr s.inFocus = true ↔ ∃ f, focusHolder s = some f := by
  unfold focusHolder
  by_cases h : truthyStr s.inFocus = true
  · simp only [h, if_true, true_iff]
    cases h2 : s.inFocus with
    | none => simp [h2, truthyStr] at h
    | some g => exact ⟨g, rfl⟩
  · simp [h]

theorem truthyStr_eq_true (o : Option String) :
    truthyStr o = true ↔ ∃ t, o = some t ∧ t ≠ "" := by
  cases o with
  | none => simp [truthyStr]
  | some t => simp [truthyStr]

theorem unfocus_part_of_holder (s : State) (target prev : String) (p : Plugin)
    (hf : focusHolder s = some prev) (hne : prev ≠ target) (hp : s.plugins.get prev = some p) :
    (if truthyStr s.inFocus ∧ s.inFocus ≠ some target then
        (post s (s.inFocus.getD "") unfocusNote).2
      else []) = [⟨p.content, unfocusNote, p.origin⟩] := by
  have h1 := (focusHolder_eq_some s prev).mp hf
  have h2 : truthyStr s.inFocus = true := (truthyStr_inFocus s).mpr ⟨prev, hf⟩
  have h3 : s.inFocus ≠ some target := by
    rw [h1.1]; intro h; exact hne (Option.some.inj h)
  rw [if_pos ⟨h2, h3⟩, h1.1, Option.getD_some, post_of_get_some s prev unfocusNote p hp]

theorem unfocus_part_of_no_holder (s : State) (target : String)
    (hf : focusHolder s = none ∨ focusHolder s = some target) :
    (if truthyStr s.inFocus ∧ s.inFocus ≠ some target then
        (post s (s.inFocus.getD "") unfocusNote).2
      else []) = ([] : List (Delivery Envelope)) := by
  rw [if_neg]
  rintro ⟨h2, h3⟩
  rcases hf with hf | hf
  · obtain ⟨f, hf2⟩ := (truthyStr_inFocus s).mp h2
    rw [hf] at hf2
    cases hf2
  · exact h3 ((focusHolder_eq_some s target).mp hf).1

theorem filter_app_callback_part (p : Plugin) (calls : List (JsVal × JsVal)) :
    (calls.flatMap (fun c =>
      if c.1.truthy then
        [(⟨p.content, Envelope.notification "compiler" "compilationData" [c.2], p.origin⟩ :
          Delivery Envelope)]
      else [])).filter isAppNotification = [] := by
  rw [List.filter_eq_nil_iff]
  intro d hd
  simp only [List.mem_flatMap] at hd
  obtain ⟨c, _, hc⟩ := hd
  split at hc
  · simp only [List.mem_singleton] at hc
    rw [hc]
    simp [isAppNotification]
  · simp at hc

/-- C1, the claim as stated fails: a plugin with the empty title and plugin
`A` are registered, and the tab changes to the plugin with the empty title,
which is sent `focus` and named by the focus token. On the change to `A`
the only `app` notification is the focus to `A`: the previous holder is
sent no unfocus, because `this.inFocus` is the empty string and reads as no
focus. -/
theorem tabChanged_sends_no_unfocus_to_empty_title :
    emittedBy demoApi State.init
        [.register ⟨"", "https://e"⟩ 1, .register ⟨"A", "https://a"⟩ 2, .tabChanged ""]
        = [⟨1, focusNote, "https://e"⟩]
      ∧ emptyFocusState.inFocus = some ""
      ∧ emptyFocusState.plugins.get "" = some ⟨1, "https://e"⟩
      ∧ emptyFocusState.plugins.get "A" = some ⟨2, "https://a"⟩
      ∧ (onTabChanged demoApi emptyFocusState "A").emitted = [⟨2, focusNote, "https://a"⟩] := by
  decide

/-- C1 as amended. In every reachable state, the `app` notifications the
`tabChanged` handler emits are `us ++ fs`: `us` is one unfocus notification
to the focus holder `prev` when the focus token is a non-empty title `prev`
and `prev ≠ target`, and nothing when the focus token is unset or is
`target`; `fs` is one focus notification to `target` when `target` is
registered, and nothing otherwise. The unfocus notification comes first. -/
theorem tabChanged_app_notifications (api : Api) (s : State) (target : String)
    (hs : Reachable api s) :
    ∃ us fs, (onTabChanged api s target).emitted.filter isAppNotification = us ++ fs
      ∧ (∀ prev, s.inFocus = some prev → prev ≠ "" → prev ≠ target →
          ∃ p, s.plugins.get prev = some p ∧ us = [⟨p.content, unfocusNote, p.origin⟩])
      ∧ (s.inFocus = none ∨ s.inFocus = some target → us = [])
      ∧ (∀ p, s.plugins.get target = some p → fs = [⟨p.content, focusNote, p.origin⟩])
      ∧ (s.plugins.get target = none → fs = []) := by
  have hU := reachable_unfocus_no_throw api s hs target
  have hus : (if truthyStr s.inFocus ∧ s.inFocus ≠ some target then
        (post s (s.inFocus.getD "") unfocusNote).2
      else []).filter isAppNotification =
      (if truthyStr s.inFocus ∧ s.inFocus ≠ some target then
        (post s (s.inFocus.getD "") unfocusNote).2
      else []) := by
    rw [List.filter_eq_self]
    intro d hd
    have := unfocus_part_values s target d hd
    unfold isAppNotification
    rw [this]
    rfl
  refine ⟨if truthyStr s.inFocus ∧ s.inFocus ≠ some target then
        (post s (s.inFocus.getD "") unfocusNote).2 else [],
      match s.plugins.get target with
      | some p => [⟨p.content, focusNote, p.origin⟩]
      | none => [], ?_, ?_, ?_, ?_, ?_⟩
  · cases h : s.plugins.get target with
    | none => rw [onTabChanged_unregistered api s target hU h]; simp [hus]
    | some p =>
      rw [(onTabChanged_registered api s target p hU h).2]
      simp only [List.filter_append, hus]
      have hfocus : List.filter isAppNotification
          [(⟨p.content, focusNote, p.origin⟩ : Delivery Envelope)]
          = [⟨p.content, focusNote, p.origin⟩] := by
        rfl
      rw [hfocus]
      cases (api "compiler").bind (fun m => m "getCompilationResult") with
      | none => simp
      | some cap => simp only [filter_app_callback_part, List.append_nil]
  · intro prev hf hne1 hne
    obtain ⟨p, hp⟩ := reachable_focus_registered api s hs prev hf
    exact ⟨p, hp, unfocus_part_of_holder s target prev p
      ((focusHolder_eq_some s prev).mpr ⟨hf, hne1⟩) hne hp⟩
  · intro h
    apply unfocus_part_of_no_holder s target
    rcases h with h | h
    · left; exact (focusHolder_eq_none s).mpr (Or.inl h)
    · by_cases ht : target = ""
      · left; rw [ht] at h; exact (focusHolder_eq_none s).mpr (Or.inr h)
      · right; exact (focusHolder_eq_some s target).mpr ⟨h, ht⟩
  · intro p hp; simp [hp]
  · intro hp; simp [hp]

/-- C1 as amended, on the spec scenario: `A` and `B` registered, `B`
focused, the tab changes to `A`: `B` is sent unfocus, then `A` is sent
focus. -/
theorem tabChanged_app_notifications_witness :
    (onTabChanged demoApi demoState "A").emitted.filter isAppNotification
        = [⟨2, unfocusNote, "https://b"⟩, ⟨1, focusNote, "https://a"⟩]
      ∧ ∃ us fs, (onTabChanged demoApi demoState "A").emitted.filter isAppNotification = us ++ fs
        ∧ (∀ prev, demoState.inFocus = some prev → prev ≠ "" → prev ≠ "A" →
            ∃ p, demoState.plugins.get prev = some p ∧ us = [⟨p.content, unfocusNote, p.origin⟩])
        ∧ (demoState.inFocus = none ∨ demoState.inFocus = some "A" → us = [])
        ∧ (∀ p, demoState.plugins.get "A" = some p → fs = [⟨p.content, focusNote, p.origin⟩])
        ∧ (demoState.plugins.get "A" = none → fs = []) :=
  ⟨by decide, tabChanged_app_notifications demoApi demoState "A" (reachable_run demoApi _)⟩

/-! ## Inbound messages -/

theorem passesSenderChecks_of_focus (s : State) (ev : MessageEvent) (f : String) (p : Plugin)
    (hidx : truthyStr (s.origins.get ev.origin) = true)
    (hf : focusHolder s = some f) (hp : s.plugins.get f = some p)
    (htype : ev.type = "message") (horigin : ev.origin = p.origin) :
    passesSenderChecks s ev := by
  have h1 := (focusHolder_eq_some s f).mp hf
  have h2 : truthyStr s.inFocus = true := (truthyStr_inFocus s).mpr ⟨f, hf⟩
  have h3 : s.inFocus.getD "" = f := by rw [h1.1]; rfl
  refine ⟨hidx, htype, h2, ?_⟩
  rw [h3, hp, horigin]
  rfl

theorem onMessage_of_not_passes (api : Api) (s : State) (ev : MessageEvent)
    (h : ¬ passesSenderChecks s ev) : onMessage api s ev = ⟨s, [], [], false⟩ := by
  unfold onMessage
  by_cases hidx : truthyStr (s.origins.get ev.origin) = true
  · rw [if_neg (by simp [hidx]), if_neg]
    rintro ⟨h1, h2, h3⟩
    exact h ⟨hidx, h1, h2, h3⟩
  · rw [if_pos (by simpa using hidx)]

theorem runCallbacks_response_emitted (origin key type : String) (callid : JsVal) (s : State)
    (calls : List (JsVal × JsVal)) :
    (runCallbacks (response origin key type callid) s calls).emitted =
      calls.flatMap (fun c => (postToOrigin s origin
        (Envelope.response callid key type c.1 [c.2])).2) :=
  runCallbacks_emitted _ (response_state _ _ _ _) s
    (fun _ h => postToOrigin_emitted_of_thrown _ _ _ h)
    (fun _ _ => postToOrigin_thrown_payload _ _ _ _) calls

theorem onMessage_of_passes (api : Api) (s : State) (ev : MessageEvent)
    (h : passesSenderChecks s ev) :
    onMessage api s ev =
      match ev.data with
      | none => ⟨s, [], [], true⟩
      | some data =>
        match (api data.key).bind (fun m => m data.type) with
        | some cap =>
          ⟨s, [⟨data.key, data.type,
              Arg.val (.str (s.inFocus.getD "")) :: data.value.map Arg.val ++ [Arg.callback]⟩],
            (cap (Arg.val (.str (s.inFocus.getD "")) :: data.value.map Arg.val
                ++ [Arg.callback])).flatMap
              (fun c => (postToOrigin s ev.origin
                (Envelope.response data.id data.key data.type c.1 [c.2])).2),
            (runCallbacks (response ev.origin data.key data.type data.id) s
              (cap (Arg.val (.str (s.inFocus.getD "")) :: data.value.map Arg.val
                ++ [Arg.callback]))).thrown⟩
        | none => ⟨s, [], [], true⟩ := by
  obtain ⟨hidx, h1, h2, h3⟩ := h
  unfold onMessage
  rw [if_neg (by simp [hidx]), if_pos ⟨h1, h2, h3⟩]
  cases ev.data with
  | none => rfl
  | some data =>
    simp only
    cases (api data.key).bind (fun m => m data.type) with
    | none => rfl
    | some cap =>
      simp only [runCallbacks_state _ (response_state _ _ _ _), runCallbacks_response_emitted]

theorem onMessage_serviced (api : Api) (s : State) (ev : MessageEvent) (f : String) (p : Plugin)
    (data : Request) (cap : Capability)
    (hidx : truthyStr (s.origins.get ev.origin) = true)
    (hf : focusHolder s = some f) (hp : s.plugins.get f = some p)
    (htype : ev.type = "message") (horigin : ev.origin = p.origin)
    (hdata : ev.data = some data)
    (hcap : (api data.key).bind (fun m => m data.type) = some cap) :
    onMessage api s ev =
      ⟨s, [⟨data.key, data.type, Arg.val (.str f) :: data.value.map Arg.val ++ [Arg.callback]⟩],
        (cap (Arg.val (.str f) :: data.value.map Arg.val ++ [Arg.callback])).flatMap
          (fun c => (postToOrigin s ev.origin
            (Envelope.response data.id data.key data.type c.1 [c.2])).2),
        (runCallbacks (response ev.origin data.key data.type data.id) s
          (cap (Arg.val (.str f) :: data.value.map Arg.val ++ [Arg.callback]))).thrown⟩ := by
  have hpass := passesSenderChecks_of_focus s ev f p hidx hf hp htype horigin
  have h1 := (focusHolder_eq_some s f).mp hf
  have h3 : s.inFocus.getD "" = f := by rw [h1.1]; rfl
  rw [onMessage_of_passes api s ev hpass, hdata]
  dsimp only
  rw [hcap, h3]

theorem onMessage_dropped (api : Api) (s : State) (ev : MessageEvent)
    (h : truthyStr (s.origins.get ev.origin) = false
      ∨ ¬ ∃ f p, focusHolder s = some f ∧ s.plugins.get f = some p ∧ p.origin = ev.origin) :
    onMessage api s ev = ⟨s, [], [], false⟩ := by
  apply onMessage_of_not_passes
  rintro ⟨hidx, _, h2, h3⟩
  rcases h with h | h
  · rw [hidx] at h; cases h
  · apply h
    obtain ⟨f, hf⟩ := (truthyStr_inFocus s).mp h2
    have h1 := (focusHolder_eq_some s f).mp hf
    rw [h1.1] at h3
    simp only [Option.getD_some, Option.map_eq_some'] at h3
    obtain ⟨p, hp, hpo⟩ := h3
    exact ⟨f, p, hf, hp, hpo⟩

/-- C2, the claim as stated fails: `A` is registered with origin
`https://a`, a plugin with the empty title is then registered with the same
origin, and `A` gets focus. A request from `https://a` for the capability
`config.getConfig`, which calls back once, is dropped: the origin index
holds the empty title for that origin, which the first test of the handler
reads as no entry. -/
theorem focused_request_dropped_when_index_holds_empty_title :
    focusHolder emptyTitleState = some "A"
      ∧ emptyTitleState.plugins.get "A" = some ⟨1, "https://a"⟩
      ∧ emptyTitleState.origins.get "https://a" = some ""
      ∧ ((demoApi demoRequest.key).bind (fun m => m demoRequest.type)).map
          (fun cap => cap (Arg.val (.str "A") :: demoRequest.value.map Arg.val ++ [Arg.callback]))
          = some [(JsVal.null, JsVal.str "contents")]
      ∧ (onMessage demoApi emptyTitleState ⟨"message", "https://a", some demoRequest⟩).emitted = []
      ∧ (onMessage demoApi emptyTitleState ⟨"message", "https://a", some demoRequest⟩).invoked = [] := by
  decide

/-- C2 as amended. In every reachable state in which the focus token is a
non-empty title `f` of a registered plugin, for every inbound message from
`f`'s recorded origin, when the origin index holds a non-empty title for
that origin, the payload parses to a request whose `(key, type)` is in the
capability table, and the capability calls back exactly once with
`(error, result)`: exactly one message is emitted, and it is the response
with the request's `id`, `key` and `type`, that `error`, and
`value: [result]`. -/
theorem focused_request_yields_one_response (api : Api) (s : State) (ev : MessageEvent)
    (f : String) (p : Plugin) (data : Request) (cap : Capability) (error result : JsVal)
    (hs : Reachable api s)
    (hf : s.inFocus = some f) (hne : f ≠ "") (hp : s.plugins.get f = some p)
    (htype : ev.type = "message") (horigin : ev.origin = p.origin)
    (hidx : ∃ t, s.origins.get ev.origin = some t ∧ t ≠ "")
    (hdata : ev.data = some data)
    (hcap : (api data.key).bind (fun m => m data.type) = some cap)
    (hcall : cap (Arg.val (.str f) :: data.value.map Arg.val ++ [Arg.callback])
      = [(error, result)]) :
    ∃ d, (onMessage api s ev).emitted = [d]
      ∧ d.value = Envelope.response data.id data.key data.type error [result] := by
  obtain ⟨t, ht, hne2⟩ := hidx
  have hidx2 : truthyStr (s.origins.get ev.origin) = true :=
    (truthyStr_eq_true _).mpr ⟨t, ht, hne2⟩
  rw [onMessage_serviced api s ev f p data cap hidx2
    ((focusHolder_eq_some s f).mpr ⟨hf, hne⟩) hp htype horigin hdata hcap, hcall]
  obtain ⟨q, hq⟩ := reachable_origins_registered api s hs ev.origin t ht
  refine ⟨⟨q.content, Envelope.response data.id data.key data.type error [result], q.origin⟩, ?_, rfl⟩
  show List.flatMap _ _ = _
  rw [List.flatMap_cons, List.flatMap_nil, List.append_nil]
  exact postToOrigin_emitted_of_indexed s ev.origin t q _ ht hne2 hq

/-- C2 as amended, on the spec scenario: `B` is focused and asks for
`config.getConfig`. -/
theorem focused_request_yields_one_response_witness :
    ∃ d, (onMessage demoApi demoState ⟨"message", "https://b", some demoRequest⟩).emitted = [d]
      ∧ d.value = Envelope.response demoRequest.id demoRequest.key demoRequest.type
          JsVal.null [JsVal.str "contents"] :=
  focused_request_yields_one_response demoApi demoState ⟨"message", "https://b", some demoRequest⟩
    "B" ⟨2, "https://b"⟩ demoRequest (fun _ => [(JsVal.null, JsVal.str "contents")])
    JsVal.null (JsVal.str "contents")
    (reachable_run demoApi _) (by decide) (by decide) (by decide) rfl rfl
    ⟨"B", by decide, by decide⟩ rfl rfl rfl

/-- C3. In every state, a message whose origin is not in the origin index,
or whose origin is not the recorded origin of the plugin that holds focus
(no plugin holding focus included), is dropped: nothing is emitted, no
capability is invoked, the state is unchanged, and the handler returns
normally. -/
theorem unrecognised_sender_dropped (api : Api) (s : State) (ev : MessageEvent)
    (h : s.origins.get ev.origin = none
      ∨ ¬ ∃ f p, focusHolder s = some f ∧ s.plugins.get f = some p ∧ p.origin = ev.origin) :
    onMessage api s ev = ⟨s, [], [], false⟩ := by
  apply onMessage_dropped
  rcases h with h | h
  · left; rw [h]; rfl
  · right; exact h

/-- C3, on the spec scenario: `B` is focused, and `A`, registered but not
focused, sends a request. -/
theorem unrecognised_sender_dropped_witness :
    onMessage demoApi demoState ⟨"message", "https://a", some demoRequest⟩
      = ⟨demoState, [], [], false⟩ :=
  unrecognised_sender_dropped demoApi demoState ⟨"message", "https://a", some demoRequest⟩
    (Or.inr (by
      rintro ⟨f, p, hf, hp, ho⟩
      have hB : focusHolder demoState = some "B" := by decide
      rw [hB] at hf
      cases hf
      have hp2 : demoState.plugins.get "B" = some ⟨2, "https://b"⟩ := by decide
      rw [hp2] at hp
      cases hp
      revert ho
      decide))

/-- C4, the claim as stated fails: `A` and `B` are registered with the same
origin and `A` gets focus. The response to `A`'s request is delivered to
the `content` of `B` (handle 2), not to that of `A` (handle 1): the origin
index holds the last title registered with the origin. -/
theorem response_goes_to_last_registrant_of_origin :
    focusHolder sharedOriginState = some "A"
      ∧ sharedOriginState.plugins.get "A" = some ⟨1, "https://a"⟩
      ∧ sharedOriginState.plugins.get "B" = some ⟨2, "https://a"⟩
      ∧ (onMessage demoApi sharedOriginState ⟨"message", "https://a", some demoRequest⟩).emitted
          = [⟨2, demoResponse, "https://a"⟩] := by
  decide

/-- C4 as amended. In every state, when the focused plugin `f` sends a
serviced request from its recorded origin and the origin index holds `f`
for that origin, the response is delivered to `f`'s own `content`, with
`f`'s origin as target origin, and nothing else is delivered. -/
theorem response_delivered_to_sender (api : Api) (s : State) (ev : MessageEvent)
    (f : String) (p : Plugin) (data : Request) (cap : Capability) (error result : JsVal)
    (hf : focusHolder s = some f) (hp : s.plugins.get f = some p)
    (htype : ev.type = "message") (horigin : ev.origin = p.origin)
    (hidx : s.origins.get p.origin = some f)
    (hdata : ev.data = some data)
    (hcap : (api data.key).bind (fun m => m data.type) = some cap)
    (hcall : cap (Arg.val (.str f) :: data.value.map Arg.val ++ [Arg.callback])
      = [(error, result)]) :
    (onMessage api s ev).emitted =
      [⟨p.content, Envelope.response data.id data.key data.type error [result], p.origin⟩] := by
  have hne : f ≠ "" := ((focusHolder_eq_some s f).mp hf).2
  have hidx2 : s.origins.get ev.origin = some f := by rw [horigin]; exact hidx
  have hidx3 : truthyStr (s.origins.get ev.origin) = true :=
    (truthyStr_eq_true _).mpr ⟨f, hidx2, hne⟩
  rw [onMessage_serviced api s ev f p data cap hidx3 hf hp htype horigin hdata hcap, hcall]
  show List.flatMap _ _ = _
  rw [List.flatMap_cons, List.flatMap_nil, List.append_nil]
  exact postToOrigin_emitted_of_indexed s ev.origin f p _ hidx2 hne hp

/-- C4 as amended, on the spec scenario: `B` is focused and sends
`{id: 7, key: 'config', type: 'getConfig', value: ['file.txt']}`; the
callback gets `(null, 'contents')`. -/
theorem response_delivered_to_sender_witness :
    (onMessage demoApi demoState ⟨"message", "https://b", some demoRequest⟩).emitted =
      [⟨2, Envelope.response demoRequest.id demoRequest.key demoRequest.type JsVal.null
        [JsVal.str "contents"], "https://b"⟩] :=
  response_delivered_to_sender demoApi demoState ⟨"message", "https://b", some demoRequest⟩
    "B" ⟨2, "https://b"⟩ demoRequest (fun _ => [(JsVal.null, JsVal.str "contents")])
    JsVal.null (JsVal.str "contents")
    (by decide) (by decide) rfl rfl (by decide) rfl rfl rfl

/-! ## Registration -/

theorem registerAll_append (calls : List (Desc × Handle)) (c : Desc × Handle) :
    registerAll (calls ++ [c]) = register (registerAll calls) c.1 c.2 := by
  simp [registerAll, List.foldl_append]

theorem registerAll_plugins_get (calls : List (Desc × Handle)) (t : String) :
    (registerAll calls).plugins.get t =
      (calls.reverse.find? (fun c => decide (c.1.title = t))).map
        (fun c => ⟨c.2, c.1.url⟩) := by
  induction calls using List.reverseRecOn with
  | nil => exact PluginTable.get_of_empty_table t
  | append_singleton calls c ih =>
    rw [registerAll_append, register_plugins_get, List.reverse_append]
    by_cases h : c.1.title = t
    · simp [h]
    · simp [h, ih]

theorem registerAll_origins_get (calls : List (Desc × Handle)) (o : String) :
    (registerAll calls).origins.get o =
      (calls.reverse.find? (fun c => decide (c.1.url = o))).map (fun c => c.1.title) := by
  induction calls using List.reverseRecOn with
  | nil => rfl
  | append_singleton calls c ih =>
    rw [registerAll_append, register_origins_get, List.reverse_append]
    by_cases h : c.1.url = o
    · simp [h]
    · simp [h, ih]

theorem PluginTable.read_absent_of_not_inherited (t : PluginTable) (name : String)
    (hget : t.get name = none) (hinh : t.inheritsName name = false) :
    t.read name = .absent := by
  unfold PluginTable.inheritsName at hinh
  simp only [Bool.or_eq_false_iff, decide_eq_false_iff_not, Bool.and_eq_false_iff] at hinh
  obtain ⟨⟨h1, h2⟩, h3⟩ := hinh
  have hown : t.own.get name = none := by
    cases ho : t.own.get name with
    | none => rfl
    | some p => rw [PluginTable.get_of_own t name p ho] at hget; cases hget
  unfold PluginTable.read
  rw [hown]
  simp only [h1, if_false]
  cases hp : t.proto with
  | none => simp [h2]
  | some q =>
    rw [hp] at h3
    rcases h3 with h3 | h3
    · simp at h3
    · simp [h3.1, h3.2, h2]

/-- C5, the claim as stated fails: on the table no `register` call has
touched, the lookup of the title `constructor` is not undefined, it is the
function inherited from `Object.prototype`; and after one registration under
the title `__proto__` the lookup of the title `content`, never registered,
is the inherited `content` element. -/
theorem lookup_of_inherited_name_is_defined :
    (registerAll []).plugins.read "constructor" = Slot.other true
      ∧ (registerAll [(⟨"__proto__", "https://p"⟩, 2)]).plugins.read "content" = Slot.other true
      ∧ (registerAll [(⟨"__proto__", "https://p"⟩, 2)]).plugins.own.entries = [] := by
  decide

/-- C5 as amended. After any sequence of `register` calls from the empty
state, the lookup of a title `t` in the plugin table yields the registration
(`content` and url) of the last call with title `t`, and no registration
when there is no such call; in that case it is undefined unless `t` is a
name the table inherits through its prototype chain. The origin index holds
for an origin `o` the title of the last call with url `o`, and nothing when
there is no such call. -/
theorem register_last_call_wins (calls : List (Desc × Handle)) (t o : String) :
    (registerAll calls).plugins.get t =
        (calls.reverse.find? (fun c => decide (c.1.title = t))).map
          (fun c => ⟨c.2, c.1.url⟩)
      ∧ (calls.reverse.find? (fun c => decide (c.1.title = t)) = none →
          (registerAll calls).plugins.inheritsName t = false →
          (registerAll calls).plugins.read t = Slot.absent)
      ∧ (registerAll calls).origins.get o =
        (calls.reverse.find? (fun c => decide (c.1.url = o))).map (fun c => c.1.title) := by
  refine ⟨registerAll_plugins_get calls t, ?_, registerAll_origins_get calls o⟩
  intro hnone hinh
  apply PluginTable.read_absent_of_not_inherited _ _ _ hinh
  rw [registerAll_plugins_get, hnone]
  rfl

/-- C6, the claim as stated fails: after `A` and then `B` are registered
with the same url, the plugin table still holds `A` with that origin, and
the origin index holds `B` for it. -/
theorem origin_index_differs_after_shared_url :
    (registerAll [(⟨"A", "https://a"⟩, 1), (⟨"B", "https://a"⟩, 2)]).plugins.get "A"
        = some ⟨1, "https://a"⟩
      ∧ (registerAll [(⟨"A", "https://a"⟩, 1), (⟨"B", "https://a"⟩, 2)]).origins.get "https://a"
        = some "B" := by
  decide

/-- C6 as amended. After any sequence of `register` calls from the empty
state in which calls with the same url have the same title, every entry of
the plugin table, of title `t` and origin `p.origin`, has
`origins[p.origin] == t`. -/
theorem origin_index_matches_plugins (calls : List (Desc × Handle))
    (huniq : ∀ c1 ∈ calls, ∀ c2 ∈ calls, c1.1.url = c2.1.url → c1.1.title = c2.1.title)
    (t : String) (p : Plugin) (hp : (registerAll calls).plugins.get t = some p) :
    (registerAll calls).origins.get p.origin = some t := by
  rw [registerAll_plugins_get] at hp
  rw [registerAll_origins_get]
  simp only [Option.map_eq_some'] at hp
  obtain ⟨c, hc, hcp⟩ := hp
  have hc1 := List.find?_some hc
  have hcmem : c ∈ calls := List.mem_reverse.mp (List.mem_of_find?_eq_some hc)
  simp only [decide_eq_true_eq] at hc1
  have hurl : p.origin = c.1.url := by rw [← hcp]
  cases hfind : calls.reverse.find? (fun c => decide (c.1.url = p.origin)) with
  | none =>
    have := List.find?_eq_none.mp hfind c (List.mem_reverse.mpr hcmem)
    simp [hurl] at this
  | some c2 =>
    have h2 := List.find?_some hfind
    have h2mem : c2 ∈ calls := List.mem_reverse.mp (List.mem_of_find?_eq_some hfind)
    simp only [decide_eq_true_eq] at h2
    have := huniq c2 h2mem c hcmem (by rw [h2, hurl])
    simp [this, hc1]

/-- C6 as amended, on the spec scenario: `A` and `B` registered with their
own origins. -/
theorem origin_index_matches_plugins_witness :
    (registerAll [(⟨"A", "https://a"⟩, 1), (⟨"B", "https://b"⟩, 2)]).origins.get "https://b"
      = some "B" :=
  origin_index_matches_plugins [(⟨"A", "https://a"⟩, 1), (⟨"B", "https://b"⟩, 2)]
    (by decide) "B" ⟨2, "https://b"⟩ (by decide)

/-- C7. In every state reachable from the initial state by `register`,
`tabChanged`, `compilationFinished`, `newTransaction` and inbound message
events, the focus token is unset or is a title present in the plugin
table. -/
theorem focus_token_names_registered_plugin (api : Api) (s : State) (hs : Reachable api s) :
    s.inFocus = none ∨ ∃ f p, s.inFocus = some f ∧ s.plugins.get f = some p := by
  cases h : s.inFocus with
  | none => exact Or.inl rfl
  | some f =>
    obtain ⟨p, hp⟩ := reachable_focus_registered api s hs f h
    exact Or.inr ⟨f, p, rfl, hp⟩

/-- C7, on the spec scenario: `A` and `B` registered, focus moved to `A`
and then to `B`. -/
theorem focus_token_names_registered_plugin_witness :
    demoState.inFocus = none
      ∨ ∃ f p, demoState.inFocus = some f ∧ demoState.plugins.get f = some p :=
  focus_token_names_registered_plugin demoApi demoState (reachable_run demoApi _)

/-- C8, the claim as stated fails: from the initial state, a change to the
tab `settings`, which is no plugin, leaves the focus token unset. -/
theorem focus_token_not_advanced_to_unregistered_tab :
    State.init.plugins.get "settings" = none
      ∧ (onTabChanged demoApi State.init "settings").state.inFocus = none
      ∧ (onTabChanged demoApi State.init "settings").state.inFocus ≠ some "settings" := by
  decide

/-- C8 as amended. In every state, a change to a tab that is not a
registered plugin emits no focus notification: no delivery of the handler
carries a notification of key `app` and type `focus`. -/
theorem tabChanged_unregistered_sends_no_focus (api : Api) (s : State) (target : String)
    (h : s.plugins.get target = none) :
    ¬ ∃ d ∈ (onTabChanged api s target).emitted,
        ∃ value, d.value = Envelope.notification "app" "focus" value := by
  rintro ⟨d, hd, value, hv⟩
  by_cases hU : (if truthyStr s.inFocus ∧ s.inFocus ≠ some target then
        post s (s.inFocus.getD "") unfocusNote
      else (⟨s, [], false⟩ : Sent Envelope)).thrown = true
  · rw [onTabChanged_of_unfocus_thrown api s target hU] at hd
    simp at hd
  · have hU2 : (if truthyStr s.inFocus ∧ s.inFocus ≠ some target then
        post s (s.inFocus.getD "") unfocusNote
      else (⟨s, [], false⟩ : Sent Envelope)).thrown = false := by simpa using hU
    rw [onTabChanged_unregistered api s target hU2 h] at hd
    have := unfocus_part_values s target d hd
    rw [this] at hv
    simp [unfocusNote] at hv

/-- C8 as amended, on the spec scenario: `B` is focused and the tab changes
to `settings`, which is no plugin; `B` is sent unfocus and nothing carries a
focus notification. -/
theorem tabChanged_unregistered_sends_no_focus_witness :
    demoState.plugins.get "settings" = none
      ∧ (onTabChanged demoApi demoState "settings").emitted = [⟨2, unfocusNote, "https://b"⟩]
      ∧ ¬ ∃ d ∈ (onTabChanged demoApi demoState "settings").emitted,
          ∃ value, d.value = Envelope.notification "app" "focus" value :=
  ⟨by decide, by decide,
    tabChanged_unregistered_sends_no_focus demoApi demoState "settings" (by decide)⟩

/-! ## Delivery -/

theorem post_focus {P : Type} (s : State) (focus : Option String) (name : String) (value : P) :
    (post { s with inFocus := focus } name value).emitted = (post s name value).emitted
      ∧ (post { s with inFocus := focus } name value).thrown = (post s name value).thrown := by
  unfold post
  cases h : s.plugins.read name with
  | absent => simp [h]
  | plugin q => simp [h]
  | other b => cases b <;> simp [h]

theorem broadcastLoop_focus {P : Type} (s : State) (focus : Option String) (value : P)
    (names : List String) :
    (broadcastLoop { s with inFocus := focus } value names).emitted
        = (broadcastLoop s value names).emitted
      ∧ (broadcastLoop { s with inFocus := focus } value names).thrown
        = (broadcastLoop s value names).thrown := by
  induction names with
  | nil => exact ⟨rfl, rfl⟩
  | cons name rest ih =>
    have hp := post_focus s focus name value
    unfold broadcastLoop
    by_cases h : (post s name value).thrown = true
    · have h2 : (post { s with inFocus := focus } name value).thrown = true := by
        rw [hp.2]; exact h
      rw [if_pos h, if_pos h2]
      exact hp
    · have h2 : ¬ (post { s with inFocus := focus } name value).thrown = true := by
        rw [hp.2]; exact h
      rw [if_neg h, if_neg h2, post_state, post_state]
      exact ⟨by rw [hp.1, ih.1], ih.2⟩

theorem broadcast_focus {P : Type} (s : State) (focus : Option String) (value : P) :
    (broadcast { s with inFocus := focus } value).emitted = (broadcast s value).emitted :=
  (broadcastLoop_focus s focus value _).1

/-- C9, the claim as stated fails: `A` and then a plugin titled `__proto__`
are registered. The lookup of `__proto__` yields that plugin's registration,
yet `broadcast` delivers to `A` only and ends by throwing: the assignment
replaced the prototype of the table, the loop visits the inherited name
`content` after the own names, and `post` fails on it. -/
theorem broadcast_misses_plugin_titled_proto :
    protoTitleState.plugins.get "A" = some ⟨1, "https://a"⟩
      ∧ protoTitleState.plugins.get "__proto__" = some ⟨2, "https://p"⟩
      ∧ protoTitleState.plugins.keys = ["A", "content", "origin"]
      ∧ (broadcast protoTitleState demoResponse).emitted = [⟨1, demoResponse, "https://a"⟩]
      ∧ (broadcast protoTitleState demoResponse).thrown = true := by
  decide

/-- C9 as amended. In every state in which no registration has been
assigned to the title `__proto__`, for every payload, `broadcast` leaves the
state unchanged, returns normally, and makes one delivery of that payload
per own entry of the plugin table, to the entry's `content` with the
entry's origin as target origin, and no other delivery; the own entries are
the registered plugins, one per title; the focus token plays no part. -/
theorem broadcast_reaches_every_plugin_once {P : Type} (s : State) (value : P)
    (hproto : s.plugins.proto = none) :
    (broadcast s value).state = s
      ∧ (broadcast s value).thrown = false
      ∧ (broadcast s value).emitted.Perm
          (s.plugins.own.entries.map (fun e => ⟨e.2.content, value, e.2.origin⟩))
      ∧ (∀ t p, (t, p) ∈ s.plugins.own.entries ↔ s.plugins.get t = some p)
      ∧ (s.plugins.own.entries.map Prod.fst).Nodup
      ∧ ∀ focus, (broadcast { s with inFocus := focus } value).emitted
          = (broadcast s value).emitted := by
  refine ⟨broadcast_state s value, (broadcast_of_proto_none s value hproto).1,
    (broadcast_of_proto_none s value hproto).2, ?_, s.plugins.own.nodup, ?_⟩
  · intro t p
    rw [PluginTable.get_of_proto_none _ _ hproto]
    exact Dict.mem_entries_iff s.plugins.own t p
  · intro focus
    exact broadcast_focus s focus value

/-- C9 as amended, on the spec scenario: `A` and `B` registered; each gets
the payload once. -/
theorem broadcast_reaches_every_plugin_once_witness :
    demoState.plugins.proto = none
      ∧ (broadcast demoState demoResponse).emitted
          = [⟨1, demoResponse, "https://a"⟩, ⟨2, demoResponse, "https://b"⟩]
      ∧ (broadcast demoState demoResponse).state = demoState
      ∧ (broadcast demoState demoResponse).thrown = false
      ∧ (broadcast demoState demoResponse).emitted.Perm
          (demoState.plugins.own.entries.map (fun e => ⟨e.2.content, demoResponse, e.2.origin⟩))
      ∧ (∀ t p, (t, p) ∈ demoState.plugins.own.entries ↔ demoState.plugins.get t = some p)
      ∧ (demoState.plugins.own.entries.map Prod.fst).Nodup
      ∧ ∀ focus, (broadcast { demoState with inFocus := focus } demoResponse).emitted
          = (broadcast demoState demoResponse).emitted :=
  ⟨rfl, by decide, broadcast_reaches_every_plugin_once demoState demoResponse rfl⟩

/-- C10, the claim as stated fails: on the initial state the title
`constructor` is not in the plugin table, and `post` on it ends by throwing
a `TypeError`: `this.plugins['constructor']` is the function inherited from
`Object.prototype`, so the branch is entered and `.content` is undefined. -/
theorem post_throws_on_inherited_name :
    State.init.plugins.get "constructor" = none
      ∧ State.init.plugins.own.entries = []
      ∧ (post State.init "constructor" demoResponse).thrown = true
      ∧ (post State.init "constructor" demoResponse).emitted = [] := by
  decide

/-- C10 as amended. In every state, `post (t, v)` leaves the state unchanged;
when `t` is in the plugin table it makes exactly one delivery, of `v` to the
`content` of `t` with `t`'s recorded origin as target origin, and returns
normally; when `this.plugins[t]` is undefined (`t` is not in the plugin
table and is not a name inherited through the prototype chain) it makes no
delivery and returns normally. -/
theorem post_delivers_to_registered_title {P : Type} (s : State) (t : String) (v : P) :
    (post s t v).state = s
      ∧ (∀ p, s.plugins.get t = some p → post s t v = ⟨s, [⟨p.content, v, p.origin⟩], false⟩)
      ∧ (s.plugins.read t = Slot.absent → post s t v = ⟨s, [], false⟩)
      ∧ (s.plugins.get t = none → s.plugins.inheritsName t = false →
          post s t v = ⟨s, [], false⟩) := by
  refine ⟨post_state s t v, ?_, ?_, ?_⟩
  · intro p hp; exact post_of_get_some s t v p hp
  · intro h; unfold post; rw [h]
  · intro h1 h2
    unfold post
    rw [PluginTable.read_absent_of_not_inherited _ _ h1 h2]

/-! ## Host events -/

/-- C11, the claim as stated fails: a plugin with the empty title is
registered and gets focus (it is sent `focus` and the focus token names
it). A `compilationFinished` event then delivers nothing: `this.inFocus` is
the empty string and reads as no focus. -/
theorem compilationFinished_skips_empty_title :
    emptyFocusState.inFocus = some ""
      ∧ emptyFocusState.plugins.get "" = some ⟨1, "https://e"⟩
      ∧ (onCompilationFinished emptyFocusState (.bool true) (.obj 1) (.obj 2)).emitted = [] := by
  decide

/-- C11 as amended. In every reachable state, the `compilationFinished`
handler leaves the state unchanged; when the focus token is a non-empty
title `f` it makes exactly one delivery, of the notification
`compiler`/`compilationFinished` with value `[success, data, source]`, to
the `content` of `f`; when the focus token is unset it makes none. -/
theorem compilationFinished_goes_to_focus_holder (api : Api) (s : State)
    (success data source : JsVal) (hs : Reachable api s) :
    (∀ f, s.inFocus = some f → f ≠ "" →
        ∃ p, s.plugins.get f = some p
          ∧ onCompilationFinished s success data source =
              ⟨s, [], [⟨p.content, compilationFinishedNote success data source, p.origin⟩],
                false⟩)
      ∧ (s.inFocus = none →
          onCompilationFinished s success data source = ⟨s, [], [], false⟩) := by
  constructor
  · intro f hf hne
    obtain ⟨p, hp⟩ := reachable_focus_registered api s hs f hf
    refine ⟨p, hp, ?_⟩
    have h2 : truthyStr s.inFocus = true := (truthyStr_eq_true _).mpr ⟨f, hf, hne⟩
    have h3 : s.inFocus.getD "" = f := by rw [hf]; rfl
    unfold onCompilationFinished
    rw [if_pos h2]
    simp only [h3, post_of_get_some s f _ p hp]
    rfl
  · intro hf
    unfold onCompilationFinished
    rw [hf]
    rfl

/-- C11 as amended, on the spec scenario: `B` holds focus and is the only
plugin that gets the notification. -/
theorem compilationFinished_goes_to_focus_holder_witness :
    demoState.inFocus = some "B"
      ∧ (onCompilationFinished demoState (.bool true) (.obj 1) (.obj 2)).emitted
          = [⟨2, compilationFinishedNote (.bool true) (.obj 1) (.obj 2), "https://b"⟩]
      ∧ (∀ f, demoState.inFocus = some f → f ≠ "" →
          ∃ p, demoState.plugins.get f = some p
            ∧ onCompilationFinished demoState (.bool true) (.obj 1) (.obj 2) =
                ⟨demoState, [],
                  [⟨p.content, compilationFinishedNote (.bool true) (.obj 1) (.obj 2), p.origin⟩],
                  false⟩)
      ∧ (demoState.inFocus = none →
          onCompilationFinished demoState (.bool true) (.obj 1) (.obj 2)
            = ⟨demoState, [], [], false⟩) :=
  ⟨by decide, by decide,
    compilationFinished_goes_to_focus_holder demoApi demoState (.bool true) (.obj 1) (.obj 2)
      (reachable_run demoApi _)⟩

/-- C12, the code at the failing input: `A` is registered and focused, the
tab changes to `settings`, which is no plugin, and a compilation finishes.
`A` is sent `focus`, then `unfocus`, then `compilationFinished`: the last
focus or unfocus notification it got is an unfocus. -/
theorem compilationFinished_sent_after_unfocus :
    emittedBy demoApi State.init
        [.register ⟨"A", "https://a"⟩ 1, .tabChanged "A", .tabChanged "settings",
          .compilationFinished (.bool true) (.obj 1) (.obj 2)]
      = [⟨1, focusNote, "https://a"⟩, ⟨1, unfocusNote, "https://a"⟩,
          ⟨1, compilationFinishedNote (.bool true) (.obj 1) (.obj 2), "https://a"⟩] := by
  decide

/-- C13, the claim as stated fails: `A` and then a plugin titled `__proto__`
are registered and the provider is `vm`. The notification is delivered to
`A` only and the handler ends by throwing, for the reason `broadcast`
does. -/
theorem newTransaction_misses_plugin_titled_proto :
    protoTitleState.plugins.get "__proto__" = some ⟨2, "https://p"⟩
      ∧ (onNewTransaction protoTitleState "vm" (.obj 1)).emitted
          = [⟨1, newTransactionNote (.obj 1), "https://a"⟩]
      ∧ (onNewTransaction protoTitleState "vm" (.obj 1)).thrown = true := by
  decide

/-- C13 as amended. In every state, the `newTransaction` handler leaves the
state unchanged; when the provider is not `vm` it delivers nothing; when it
is `vm` and no registration has been assigned to the title `__proto__`, it
makes one delivery of the notification `txlistener`/`newTransaction` with
value `[tx]` per own entry of the plugin table, to the entry's `content`
with the entry's origin, and no other delivery, and returns normally; the
focus token plays no part. -/
theorem newTransaction_broadcast_on_vm_only (s : State) (provider : String) (tx : JsVal) :
    (onNewTransaction s provider tx).state = s
      ∧ (provider ≠ "vm" → onNewTransaction s provider tx = ⟨s, [], [], false⟩)
      ∧ (provider = "vm" → s.plugins.proto = none →
          (onNewTransaction s provider tx).thrown = false
          ∧ (onNewTransaction s provider tx).emitted.Perm
            (s.plugins.own.entries.map
              (fun e => ⟨e.2.content, newTransactionNote tx, e.2.origin⟩)))
      ∧ ∀ focus, (onNewTransaction { s with inFocus := focus } provider tx).emitted
          = (onNewTransaction s provider tx).emitted := by
  refine ⟨onNewTransaction_state s provider tx, ?_, ?_, ?_⟩
  · intro h
    unfold onNewTransaction
    rw [if_pos h]
  · intro h hproto
    unfold onNewTransaction
    rw [if_neg (by simp [h])]
    exact broadcast_of_proto_none s _ hproto
  · intro focus
    unfold onNewTransaction
    by_cases h : provider = "vm"
    · rw [if_neg (by simp [h]), if_neg (by simp [h])]
      exact broadcast_focus s focus _
    · rw [if_pos h, if_pos h]

/-- C13 as amended, on the spec scenario: `A` and `B` registered, `tx` the
object `{hash: '0x1'}` (the reference `obj 1`), provider `vm`: both get the
notification. -/
theorem newTransaction_broadcast_on_vm_only_witness :
    (onNewTransaction demoState "vm" (.obj 1)).emitted
      = [⟨1, newTransactionNote (.obj 1), "https://a"⟩,
          ⟨2, newTransactionNote (.obj 1), "https://b"⟩]
      ∧ onNewTransaction demoState "injected" (.obj 1) = ⟨demoState, [], [], false⟩ :=
  ⟨by decide, (newTransaction_broadcast_on_vm_only demoState "injected" (.obj 1)).2.1 (by decide)⟩

theorem PluginTable.read_empty_title (t : PluginTable) : t.read "" ≠ .other true := by
  unfold PluginTable.read
  cases t.own.get "" with
  | some p => simp
  | none =>
    cases t.proto with
    | none => simp [objectPrototypeNames]
    | some q => simp [objectPrototypeNames]

theorem unfocus_post_of_branch_skipped (s : State) (target : String) (p : Plugin)
    (hp : s.plugins.get target = some p)
    (hc : ¬ (truthyStr s.inFocus ∧ s.inFocus ≠ some target)) :
    (post s (s.inFocus.getD "") unfocusNote).thrown = false := by
  cases hf : s.inFocus with
  | none =>
    rw [Option.getD_none]
    cases h : (post s "" unfocusNote).thrown with
    | false => rfl
    | true => exact absurd ((post_thrown_iff s "" unfocusNote).mp h) (s.plugins.read_empty_title)
  | some f =>
    rw [Option.getD_some]
    by_cases hne : f = ""
    · subst hne
      cases h : (post s "" unfocusNote).thrown with
      | false => rfl
      | true => exact absurd ((post_thrown_iff s "" unfocusNote).mp h) (s.plugins.read_empty_title)
    · have h2 : truthyStr s.inFocus = true := (truthyStr_eq_true _).mpr ⟨f, hf, hne⟩
      have h3 : f = target := by
        by_contra hft
        apply hc
        refine ⟨h2, ?_⟩
        rw [hf]
        intro h
        exact hft (Option.some.inj h)
      rw [h3, post_of_get_some s target unfocusNote p hp]

/-- C14, what the code does: when `target` is registered and the
compilation-result provider calls back once with an `error` that is falsy
(no error) and data `d`, the `tabChanged` handler delivers no
`compilationData` notification: what it emits is the unfocus part followed
by the focus notification and nothing more (and the unfocus part alone when
the unfocus `post` throws, which it does in no reachable state). The
callback returns at `if (!error) return`. -/
theorem compilationData_not_sent_without_error (api : Api) (s : State) (target : String)
    (p : Plugin) (cap : Capability) (error d : JsVal)
    (hp : s.plugins.get target = some p)
    (hcap : (api "compiler").bind (fun m => m "getCompilationResult") = some cap)
    (hcall : cap [Arg.val (.str target), Arg.callback] = [(error, d)])
    (herr : error.truthy = false) :
    (onTabChanged api s target).emitted =
        (if truthyStr s.inFocus ∧ s.inFocus ≠ some target then
            (post s (s.inFocus.getD "") unfocusNote).2
          else [])
        ++ (if (post s (s.inFocus.getD "") unfocusNote).thrown then []
          else [⟨p.content, focusNote, p.origin⟩])
      ∧ ∀ x ∈ (onTabChanged api s target).emitted, x.value ≠ compilationDataNote d := by
  have hem : (if truthyStr s.inFocus ∧ s.inFocus ≠ some target then
        post s (s.inFocus.getD "") unfocusNote
      else (⟨s, [], false⟩ : Sent Envelope)).thrown = false →
      (onTabChanged api s target).emitted =
        (if truthyStr s.inFocus ∧ s.inFocus ≠ some target then
            (post s (s.inFocus.getD "") unfocusNote).2
          else [])
        ++ [⟨p.content, focusNote, p.origin⟩] := by
    intro hU
    rw [(onTabChanged_registered api s target p hU hp).2, hcap]
    simp [hcall, herr]
  constructor
  · by_cases hT : (post s (s.inFocus.getD "") unfocusNote).thrown = true
    · by_cases hc : truthyStr s.inFocus ∧ s.inFocus ≠ some target
      · have hU : (if truthyStr s.inFocus ∧ s.inFocus ≠ some target then
              post s (s.inFocus.getD "") unfocusNote
            else (⟨s, [], false⟩ : Sent Envelope)).thrown = true := by
          rw [if_pos hc]; exact hT
        rw [onTabChanged_of_unfocus_thrown api s target hU, if_pos hc, if_pos hT,
          List.append_nil]
        exact (post_emitted_of_thrown s _ unfocusNote hT).symm
      · rw [unfocus_post_of_branch_skipped s target p hp hc] at hT
        cases hT
    · have hF : (post s (s.inFocus.getD "") unfocusNote).thrown = false := by simpa using hT
      rw [hem (unfocus_branch_thrown s target hF), if_neg hT]
  · intro x hx hv
    by_cases hU : (if truthyStr s.inFocus ∧ s.inFocus ≠ some target then
          post s (s.inFocus.getD "") unfocusNote
        else (⟨s, [], false⟩ : Sent Envelope)).thrown = true
    · rw [onTabChanged_of_unfocus_thrown api s target hU] at hx
      simp at hx
    · rw [hem (by simpa using hU), List.mem_append] at hx
      rcases hx with hx | hx
      · have := unfocus_part_values s target x hx
        rw [this] at hv
        simp [unfocusNote, compilationDataNote] at hv
      · simp only [List.mem_singleton] at hx
        rw [hx] at hv
        simp [focusNote, compilationDataNote] at hv

/-- C14, the code at the failing input: `A` is registered, the provider
calls back with `(null, obj 5)`, the tab changes to `A`: only the focus
notification is delivered. -/
theorem compilationData_not_sent_without_error_witness :
    (onTabChanged eagerApi oneRegisteredState "A").emitted =
        (if truthyStr oneRegisteredState.inFocus ∧ oneRegisteredState.inFocus ≠ some "A" then
            (post oneRegisteredState (oneRegisteredState.inFocus.getD "") unfocusNote).2
          else [])
        ++ (if (post oneRegisteredState (oneRegisteredState.inFocus.getD "") unfocusNote).thrown
          then [] else [⟨1, focusNote, "https://a"⟩])
      ∧ ∀ x ∈ (onTabChanged eagerApi oneRegisteredState "A").emitted,
          x.value ≠ compilationDataNote (.obj 5) :=
  compilationData_not_sent_without_error eagerApi oneRegisteredState "A" ⟨1, "https://a"⟩
    (fun _ => [(JsVal.null, JsVal.obj 5)]) JsVal.null (JsVal.obj 5)
    (by decide) rfl rfl rfl

/-- C15. In every state, `register`, `broadcast`, `post`, `postToOrigin`,
the `compilationFinished` handler, the `newTransaction` handler and the
`message` listener leave the focus token as it was. -/
theorem focus_token_kept_by_all_but_tabChanged (api : Api) (s : State) :
    (∀ desc content, (register s desc content).inFocus = s.inFocus)
      ∧ (∀ (P : Type) (v : P), (broadcast s v).1.inFocus = s.inFocus)
      ∧ (∀ (P : Type) (t : String) (v : P), (post s t v).1.inFocus = s.inFocus)
      ∧ (∀ (P : Type) (o : String) (v : P), (postToOrigin s o v).1.inFocus = s.inFocus)
      ∧ (∀ success data source,
          (onCompilationFinished s success data source).state.inFocus = s.inFocus)
      ∧ (∀ provider tx, (onNewTransaction s provider tx).state.inFocus = s.inFocus)
      ∧ (∀ ev, (onMessage api s ev).state.inFocus = s.inFocus) := by
  refine ⟨fun _ _ => rfl, ?_, ?_, ?_, ?_, ?_, ?_⟩
  · intro P v; show (broadcast s v).state.inFocus = _; rw [broadcast_state]
  · intro P t v; show (post s t v).state.inFocus = _; rw [post_state]
  · intro P o v; show (postToOrigin s o v).state.inFocus = _; rw [postToOrigin_state]
  · intro success data source; rw [onCompilationFinished_state]
  · intro provider tx; rw [onNewTransaction_state]
  · intro ev; rw [onMessage_state]

/-! ## Dispatch -/

/-- C16, the code at the failing input: `B` holds focus; a message from its
origin whose payload does not parse, and a request for `config.dropConfig`,
which is not in the capability table, each make the handler end by throwing,
with no response posted. -/
theorem message_handler_throws_on_bad_request :
    focusHolder demoState = some "B"
      ∧ demoState.plugins.get "B" = some ⟨2, "https://b"⟩
      ∧ (onMessage demoApi demoState ⟨"message", "https://b", none⟩).thrown = true
      ∧ (onMessage demoApi demoState
          ⟨"message", "https://b", some ⟨.num 8, "config", "dropConfig", []⟩⟩).thrown = true
      ∧ (onMessage demoApi demoState
          ⟨"message", "https://b", some ⟨.num 8, "config", "dropConfig", []⟩⟩).emitted = [] := by
  decide

/-- C17. For every serviced request `{id, key, type, value}` of the focused
plugin `f` (a message that passes the sender checks, with `(key, type)` in
the capability table), `api[key][type]` is invoked exactly once, with the
argument list `[f, ...value, callback]`; the responses emitted are those of
the callback invocations this one call makes. -/
theorem capability_called_once_with_title_args_callback (api : Api) (s : State)
    (ev : MessageEvent) (f : String) (p : Plugin) (data : Request) (cap : Capability)
    (hidx : truthyStr (s.origins.get ev.origin) = true)
    (hf : focusHolder s = some f) (hp : s.plugins.get f = some p)
    (htype : ev.type = "message") (horigin : ev.origin = p.origin)
    (hdata : ev.data = some data)
    (hcap : (api data.key).bind (fun m => m data.type) = some cap) :
    (onMessage api s ev).invoked =
        [⟨data.key, data.type, Arg.val (.str f) :: data.value.map Arg.val ++ [Arg.callback]⟩]
      ∧ (onMessage api s ev).emitted =
        (cap (Arg.val (.str f) :: data.value.map Arg.val ++ [Arg.callback])).flatMap
          (fun c => (postToOrigin s ev.origin
            (Envelope.response data.id data.key data.type c.1 [c.2])).2) := by
  rw [onMessage_serviced api s ev f p data cap hidx hf hp htype horigin hdata hcap]
  exact ⟨rfl, rfl⟩

/-- C17, on the spec scenario: `B` is focused and sends
`{id: 7, key: 'config', type: 'getConfig', value: ['file.txt']}`; the
capability gets `['B', 'file.txt', callback]`. -/
theorem capability_called_once_with_title_args_callback_witness :
    (onMessage demoApi demoState ⟨"message", "https://b", some demoRequest⟩).invoked =
        [⟨"config", "getConfig", [Arg.val (.str "B"), Arg.val (.str "file.txt"), Arg.callback]⟩]
      ∧ (onMessage demoApi demoState ⟨"message", "https://b", some demoRequest⟩).emitted =
        ([(JsVal.null, JsVal.str "contents")] : List (JsVal × JsVal)).flatMap
          (fun c => (postToOrigin demoState "https://b"
            (Envelope.response (.num 7) "config" "getConfig" c.1 [c.2])).2) :=
  capability_called_once_with_title_args_callback demoApi demoState
    ⟨"message", "https://b", some demoRequest⟩ "B" ⟨2, "https://b"⟩ demoRequest
    (fun _ => [(JsVal.null, JsVal.str "contents")])
    (by decide) (by decide) (by decide) rfl rfl rfl rfl

/-- C18, the claim as stated fails: `B` is focused and its request reaches a
capability that calls the callback twice; two responses are emitted for the
one request. -/
theorem two_callbacks_give_two_responses :
    focusHolder demoState = some "B"
      ∧ demoState.plugins.get "B" = some ⟨2, "https://b"⟩
      ∧ (onMessage eagerApi demoState ⟨"message", "https://b", some demoRequest⟩).invoked =
          [⟨"config", "getConfig", [Arg.val (.str "B"), Arg.val (.str "file.txt"), Arg.callback]⟩]
      ∧ (onMessage eagerApi demoState ⟨"message", "https://b", some demoRequest⟩).emitted =
          [⟨2, .response (.num 7) "config" "getConfig" .null [.str "first"], "https://b"⟩,
            ⟨2, .response (.num 7) "config" "getConfig" .null [.str "second"], "https://b"⟩] := by
  decide

/-- C18 as amended. In every reachable state, for every serviced request,
one response is emitted per invocation of the callback: the responses are,
in order, those for the `(error, result)` pairs the capability passes to
the callback, all delivered to the plugin the origin index holds for the
event origin. -/
theorem one_response_per_callback_invocation (api : Api) (s : State) (ev : MessageEvent)
    (f : String) (p : Plugin) (data : Request) (cap : Capability)
    (hs : Reachable api s)
    (hidx : truthyStr (s.origins.get ev.origin) = true)
    (hf : focusHolder s = some f) (hp : s.plugins.get f = some p)
    (htype : ev.type = "message") (horigin : ev.origin = p.origin)
    (hdata : ev.data = some data)
    (hcap : (api data.key).bind (fun m => m data.type) = some cap) :
    ∃ q : Plugin, (onMessage api s ev).emitted =
        (cap (Arg.val (.str f) :: data.value.map Arg.val ++ [Arg.callback])).map
          (fun c => ⟨q.content, Envelope.response data.id data.key data.type c.1 [c.2],
            q.origin⟩)
      ∧ (onMessage api s ev).emitted.length =
        (cap (Arg.val (.str f) :: data.value.map Arg.val ++ [Arg.callback])).length := by
  rw [onMessage_serviced api s ev f p data cap hidx hf hp htype horigin hdata hcap]
  obtain ⟨t, ht, hne⟩ := (truthyStr_eq_true _).mp hidx
  obtain ⟨q, hq⟩ := reachable_origins_registered api s hs ev.origin t ht
  have hmap : ∀ (calls : List (JsVal × JsVal)),
      calls.flatMap (fun c => (postToOrigin s ev.origin
          (Envelope.response data.id data.key data.type c.1 [c.2])).2)
        = calls.map (fun c =>
            ⟨q.content, Envelope.response data.id data.key data.type c.1 [c.2], q.origin⟩) := by
    intro calls
    induction calls with
    | nil => rfl
    | cons c rest ih =>
      rw [List.flatMap_cons, List.map_cons, ih]
      show (postToOrigin s ev.origin _).emitted ++ _ = _
      rw [postToOrigin_emitted_of_indexed s ev.origin t q _ ht hne hq]
      rfl
  refine ⟨q, ?_, ?_⟩
  · exact hmap _
  · show (List.flatMap _ _).length = _
    rw [hmap, List.length_map]

/-- C18 as amended, on the spec scenario: `B` is focused and the capability
calls back once. -/
theorem one_response_per_callback_invocation_witness :
    ∃ q : Plugin, (onMessage demoApi demoState ⟨"message", "https://b", some demoRequest⟩).emitted =
        ([(JsVal.null, JsVal.str "contents")] : List (JsVal × JsVal)).map
          (fun c => ⟨q.content, Envelope.response (.num 7) "config" "getConfig" c.1 [c.2],
            q.origin⟩)
      ∧ (onMessage demoApi demoState ⟨"message", "https://b", some demoRequest⟩).emitted.length =
        ([(JsVal.null, JsVal.str "contents")] : List (JsVal × JsVal)).length :=
  one_response_per_callback_invocation demoApi demoState
    ⟨"message", "https://b", some demoRequest⟩ "B" ⟨2, "https://b"⟩ demoRequest
    (fun _ => [(JsVal.null, JsVal.str "contents")])
    (reachable_run demoApi _) (by decide) (by decide) (by decide) rfl rfl rfl rfl

/-- C19, the claim as stated fails: `A` holds focus and a plugin with the
empty title was registered later with `A`'s origin. A request from that
origin for `config.dropConfig`, which is not in the capability table, is
dropped by the first sender check and the handler returns normally. -/
theorem unknown_capability_request_dropped_when_index_holds_empty_title :
    focusHolder emptyTitleState = some "A"
      ∧ emptyTitleState.plugins.get "A" = some ⟨1, "https://a"⟩
      ∧ (demoApi "config").bind (fun m => m "dropConfig") = none
      ∧ (onMessage demoApi emptyTitleState
          ⟨"message", "https://a", some ⟨.num 8, "config", "dropConfig", []⟩⟩).thrown = false := by
  refine ⟨by decide, by decide, rfl, by decide⟩

/-- C19 as amended. In every state in which the focus token is a non-empty
title `f` of a registered plugin, for every message from `f`'s recorded
origin for which the origin index holds a non-empty title and whose payload
parses to a request with `(key, type)` absent from the capability table
(the key missing, or the type missing under the key): the handler ends by
throwing, emits nothing, invokes nothing, and leaves the state unchanged. -/
theorem unknown_capability_request_throws (api : Api) (s : State) (ev : MessageEvent)
    (f : String) (p : Plugin) (data : Request)
    (hf : s.inFocus = some f) (hne : f ≠ "") (hp : s.plugins.get f = some p)
    (htype : ev.type = "message") (horigin : ev.origin = p.origin)
    (hidx : ∃ t, s.origins.get ev.origin = some t ∧ t ≠ "")
    (hdata : ev.data = some data)
    (hcap : api data.key = none ∨ ∃ m, api data.key = some m ∧ m data.type = none) :
    onMessage api s ev = ⟨s, [], [], true⟩ := by
  have hidx2 : truthyStr (s.origins.get ev.origin) = true := (truthyStr_eq_true _).mpr hidx
  have hpass := passesSenderChecks_of_focus s ev f p hidx2
    ((focusHolder_eq_some s f).mpr ⟨hf, hne⟩) hp htype horigin
  have hnone : (api data.key).bind (fun m => m data.type) = none := by
    rcases hcap with h | ⟨m, h1, h2⟩
    · rw [h]; rfl
    · rw [h1]; exact h2
  rw [onMessage_of_passes api s ev hpass, hdata]
  dsimp only
  rw [hnone]

/-- C19 as amended, on the spec scenario: `B` is focused and asks for
`config.dropConfig`, which the table does not hold. -/
theorem unknown_capability_request_throws_witness :
    onMessage demoApi demoState
        ⟨"message", "https://b", some ⟨.num 8, "config", "dropConfig", []⟩⟩
      = ⟨demoState, [], [], true⟩ :=
  unknown_capability_request_throws demoApi demoState
    ⟨"message", "https://b", some ⟨.num 8, "config", "dropConfig", []⟩⟩
    "B" ⟨2, "https://b"⟩ ⟨.num 8, "config", "dropConfig", []⟩
    (by decide) (by decide) (by decide) rfl rfl ⟨"B", by decide, by decide⟩ rfl
    (Or.inr ⟨fun type =>
      if type = "getConfig" then some (fun _ => [(JsVal.null, JsVal.str "contents")]) else none,
      rfl, rfl⟩)

theorem reachable_registerAll (api : Api) (calls : List (Desc × Handle)) :
    Reachable api (registerAll calls) := by
  induction calls using List.reverseRecOn with
  | nil => exact Reachable.init
  | append_singleton calls c ih =>
    rw [registerAll_append]
    exact Reachable.step (Event.register c.1 c.2) ih

/-- C20, the claim as stated fails: after one `register` call with the empty
title, the origin index holds an entry for the url, the title it holds is in
the plugin table, and `postToOrigin` on that origin delivers nothing. -/
theorem postToOrigin_drops_for_empty_title :
    (registerAll [(⟨"", "https://a"⟩, 1)]).origins.get "https://a" = some ""
      ∧ (registerAll [(⟨"", "https://a"⟩, 1)]).plugins.get "" = some ⟨1, "https://a"⟩
      ∧ (postToOrigin (registerAll [(⟨"", "https://a"⟩, 1)]) "https://a" demoResponse).2 = [] := by
  decide

/-- C20 as amended. After any sequence of `register` calls from the empty
state, every origin in the origin index holds a title that is in the plugin
table; `postToOrigin (o, v)` makes exactly one delivery, to the plugin
`origins[o]`, when the index holds a non-empty title for `o`, and none when
`o` is not in the index; the state is unchanged and the call returns
normally. -/
theorem postToOrigin_on_registered_states {P : Type} (calls : List (Desc × Handle)) (v : P) :
    (∀ o t, (registerAll calls).origins.get o = some t →
        ∃ p, (registerAll calls).plugins.get t = some p)
      ∧ (∀ o t, (registerAll calls).origins.get o = some t → t ≠ "" →
          ∃ p, (registerAll calls).plugins.get t = some p
            ∧ postToOrigin (registerAll calls) o v
                = ⟨registerAll calls, [⟨p.content, v, p.origin⟩], false⟩)
      ∧ (∀ o, (registerAll calls).origins.get o = none →
          postToOrigin (registerAll calls) o v = ⟨registerAll calls, [], false⟩) := by
  have hinv := reachable_origins_registered demoApi (registerAll calls)
    (reachable_registerAll demoApi calls)
  refine ⟨hinv, ?_, ?_⟩
  · intro o t ho hne
    obtain ⟨p, hp⟩ := hinv o t ho
    exact ⟨p, hp, postToOrigin_of_indexed (registerAll calls) o t p v ho hne hp⟩
  · intro o ho
    unfold postToOrigin
    rw [ho]

end PluginManager
